import Mathlib

/-!
# experimentalux: the input sketches, embedded

A shallow embedding of the p5.js sketches `examples/Microphone/sketch.js`,
`examples/Scroll/sketch.js`, `examples/Single_Touch/sketch.js` and
`examples/Multi_Touch/sketch.js`.  Module-level `let` variables become the fields of a
state record, each handler becomes a function from state (and the values it reads
from its environment: the microphone level, `millis()`, the event) to state.

Numbers: a JavaScript number is modelled by `JSNum`, a rational or one of the three
non-finite values.  The operators come in two forms: exact, and rounded to IEEE 754
binary64 (`addD`, `subD`, `mulD`, `divD`, used by the definitions whose name ends in
`Double`); the rolling averages are studied in both.  The sign of zero is not modelled.
Clock readings (`millis()`) are finite and are kept as rationals; a handler call reads
one clock value, except in `updateDataReads` and `updateDataDouble`, which keep the three
reads of `updateData` apart.  Pointer and touch coordinates are finite and are kept as
rationals; the p5 functions `dist` and `atan2` are parameters.
-/

namespace ExperimentalUX

/-- A JavaScript number: a finite value (taken as an exact rational), `Infinity`,
`-Infinity` or `NaN`. -/
inductive JSNum where
  | fin (q : ℚ)
  | posInf
  | negInf
  | nan
  deriving DecidableEq

namespace JSNum

/-- The JavaScript `+` on numbers. -/
def add : JSNum → JSNum → JSNum
  | nan, _ => nan
  | _, nan => nan
  | fin a, fin b => fin (a + b)
  | fin _, posInf => posInf
  | fin _, negInf => negInf
  | posInf, fin _ => posInf
  | negInf, fin _ => negInf
  | posInf, posInf => posInf
  | negInf, negInf => negInf
  | posInf, negInf => nan
  | negInf, posInf => nan

/-- Unary minus. -/
def neg : JSNum → JSNum
  | fin a => fin (-a)
  | posInf => negInf
  | negInf => posInf
  | nan => nan

/-- The JavaScript binary `-`. -/
def sub (a b : JSNum) : JSNum := add a (neg b)

/-- An infinity of the sign of `q`, `NaN` when `q = 0` (the product `q * Infinity`). -/
def infOfSign (q : ℚ) : JSNum :=
  if q = 0 then nan else if 0 < q then posInf else negInf

/-- The JavaScript `*`. -/
def mul : JSNum → JSNum → JSNum
  | nan, _ => nan
  | _, nan => nan
  | fin a, fin b => fin (a * b)
  | fin a, posInf => infOfSign a
  | fin a, negInf => infOfSign (-a)
  | posInf, fin b => infOfSign b
  | negInf, fin b => infOfSign (-b)
  | posInf, posInf => posInf
  | negInf, negInf => posInf
  | posInf, negInf => negInf
  | negInf, posInf => negInf

/-- The JavaScript `/`.  A zero divisor is taken as `+0`: a non-zero finite value
divided by it is an infinity of the value's sign, and `0 / 0` is `NaN`. -/
def div : JSNum → JSNum → JSNum
  | nan, _ => nan
  | _, nan => nan
  | fin a, fin b => if b = 0 then infOfSign a else fin (a / b)
  | fin _, posInf => fin 0
  | fin _, negInf => fin 0
  | posInf, fin b => if 0 ≤ b then posInf else negInf
  | negInf, fin b => if 0 ≤ b then negInf else posInf
  | posInf, posInf => nan
  | negInf, negInf => nan
  | posInf, negInf => nan
  | negInf, posInf => nan

/-- The JavaScript `<`: false whenever an operand is `NaN`. -/
def lt : JSNum → JSNum → Bool
  | nan, _ => false
  | _, nan => false
  | fin a, fin b => decide (a < b)
  | fin _, posInf => true
  | fin _, negInf => false
  | posInf, _ => false
  | negInf, fin _ => true
  | negInf, posInf => true
  | negInf, negInf => false

/-- The JavaScript `>`. -/
def gt (a b : JSNum) : Bool := lt b a

/-- The JavaScript `>=`: false whenever an operand is `NaN`, otherwise "not less". -/
def ge : JSNum → JSNum → Bool
  | nan, _ => false
  | _, nan => false
  | a, b => !(lt a b)

/-- The JavaScript `===` on numbers: `NaN` is not equal to itself. -/
def strictEq : JSNum → JSNum → Bool
  | nan, _ => false
  | _, nan => false
  | a, b => decide (a = b)

/-- `Math.min` of two numbers (p5's `min`): `NaN` if either is `NaN`. -/
def min : JSNum → JSNum → JSNum
  | nan, _ => nan
  | _, nan => nan
  | a, b => if lt b a then b else a

/-- `Math.max` of two numbers (p5's `max`): `NaN` if either is `NaN`. -/
def max : JSNum → JSNum → JSNum
  | nan, _ => nan
  | _, nan => nan
  | a, b => if lt a b then b else a

/-- `Math.abs` (p5's `abs`). -/
def abs : JSNum → JSNum
  | fin a => fin |a|
  | posInf => posInf
  | negInf => posInf
  | nan => nan

/-- The number is finite. -/
def isFinite : JSNum → Bool
  | fin _ => true
  | _ => false

/-! ### IEEE 754 binary64 rounding

The operations above are exact.  The ones below round their result to the nearest
binary64 value, a tie going to the even significand, as the JavaScript operators do on
numbers; their operands are meant to be binary64 values. -/

/-- Round to the nearest integer, a tie going to the even one. -/
def roundEven (x : ℚ) : ℤ :=
  if x - ⌊x⌋ < 1 / 2 then ⌊x⌋
  else if 1 / 2 < x - ⌊x⌋ then ⌊x⌋ + 1
  else if ⌊x⌋ % 2 = 0 then ⌊x⌋ else ⌊x⌋ + 1

/-- The spacing of the binary64 values at the magnitude of `x`: `2 ^ (e - 52)` when
`2 ^ e ≤ |x| < 2 ^ (e + 1)`, and `2 ^ (-1074)` for `|x| < 2 ^ (-1022)` (subnormals). -/
def ulp (x : ℚ) : ℚ :=
  (2 : ℚ) ^ (Max.max (Int.log 2 |x|) (-1022) - 52)

/-- The multiple of `ulp x` nearest to `x`, a tie going to the even multiple: the
binary64 rounding of `x` when the exponent range is not exceeded. -/
def roundQ (x : ℚ) : ℚ :=
  (roundEven (x / ulp x) : ℚ) * ulp x

/-- The binary64 value of the rational `x`: `roundQ x`, or an infinity of the sign of `x`
when that is `2 ^ 1024` or more in magnitude. -/
def toDouble (x : ℚ) : JSNum :=
  if (2 : ℚ) ^ (1024 : ℕ) ≤ |roundQ x| then infOfSign x else fin (roundQ x)

/-- Rounding of an exact result: finite values go to binary64, the others stay. -/
def roundNum : JSNum → JSNum
  | fin q => toDouble q
  | a => a

/-- The JavaScript `+` on binary64 values. -/
def addD (a b : JSNum) : JSNum := roundNum (add a b)

/-- The JavaScript binary `-` on binary64 values. -/
def subD (a b : JSNum) : JSNum := roundNum (sub a b)

/-- The JavaScript `*` on binary64 values. -/
def mulD (a b : JSNum) : JSNum := roundNum (mul a b)

/-- The JavaScript `/` on binary64 values. -/
def divD (a b : JSNum) : JSNum := roundNum (div a b)

end JSNum

/-- The rational `a` lies between the least and the greatest element of `vs`:
`lo` and `hi` are elements of `vs` that bound every element, and `lo ≤ a ≤ hi`. -/
def Between (a : ℚ) (vs : List ℚ) : Prop :=
  ∃ lo ∈ vs, ∃ hi ∈ vs, (∀ v ∈ vs, lo ≤ v ∧ v ≤ hi) ∧ lo ≤ a ∧ a ≤ hi

instance (a : ℚ) (vs : List ℚ) : Decidable (Between a vs) := by
  unfold Between
  infer_instance

/-- The allowance for binary64 rounding in the mean of `n` values of magnitude at most
`A`: `(n + 1) * A * 2 ^ (-52) + 2 ^ (-1073)`. -/
def roundingSlack (n : Nat) (A : ℚ) : ℚ :=
  (n + 1) * A / 2 ^ 52 + 1 / 2 ^ 1073

/-- The rational `a` lies between the least and the greatest element of `vs` up to `E`:
`lo` and `hi` are elements of `vs` that bound every element, and
`lo - E ≤ a ≤ hi + E`. -/
def NearBetween (a : ℚ) (vs : List ℚ) (E : ℚ) : Prop :=
  ∃ lo ∈ vs, ∃ hi ∈ vs, (∀ v ∈ vs, lo ≤ v ∧ v ≤ hi) ∧ lo - E ≤ a ∧ a ≤ hi + E

/-! ## Microphone sketch -/

namespace Microphone

/-- `let VOLUME_SCALAR = 5`. -/
def VOLUME_SCALAR : ℚ := 5

/-- `let HISTORY_LENGTH = 100`. -/
def HISTORY_LENGTH : Nat := 100

/-- `let LOUD_THRESHOLD = 0.5`. -/
def LOUD_THRESHOLD : ℚ := 1 / 2

/-- `let RATE_WINDOW = 5000` (milliseconds). -/
def RATE_WINDOW : ℚ := 5000

/-- The module-level variables of the Microphone sketch that `updateData` reads or writes. -/
structure State where
  volume : JSNum
  scaledVolume : JSNum
  peakVolume : JSNum
  averageVolume : JSNum
  volumeHistory : List JSNum
  lastLoudEventTime : ℚ
  timeSinceLoudEvent : ℚ
  loudEventCount : Nat
  loudEventRate : ℚ

/-- The values the module-level declarations give the variables. -/
def init : State :=
  { volume := .fin 0, scaledVolume := .fin 0, peakVolume := .fin 0, averageVolume := .fin 0,
    volumeHistory := [], lastLoudEventTime := 0, timeSinceLoudEvent := 0,
    loudEventCount := 0, loudEventRate := 0 }

/-- The history update of `updateData`: `volumeHistory.push(v)`, then one `shift()` when
the length exceeds the cap (`HISTORY_LENGTH` in the sketch). -/
def pushHistory (cap : Nat) (hist : List JSNum) (v : JSNum) : List JSNum :=
  let pushed := hist ++ [v]
  if pushed.length > cap then pushed.tail else pushed

/-- The `reduce((sum, vol) => sum + vol, 0)` of `updateData`. -/
def sumHistory (hist : List JSNum) : JSNum :=
  hist.foldl JSNum.add (.fin 0)

/-- The function `updateData` with its three clock reads kept apart; `level` is what
`mic.getLevel()` returns, and `t1`, `t2`, `t3` are what `millis()` returns in
`lastLoudEventTime = millis()` (read only for a loud sample), in
`timeSinceLoudEvent = (millis() - lastLoudEventTime) / 1000` and in the reset test
`millis() - lastLoudEventTime > RATE_WINDOW`. -/
def updateDataReads (s : State) (level : JSNum) (t1 t2 t3 : ℚ) : State :=
  let volume := level
  let scaledVolume := JSNum.min (JSNum.mul volume (.fin VOLUME_SCALAR)) (.fin 1)
  let volumeHistory := pushHistory HISTORY_LENGTH s.volumeHistory scaledVolume
  let peakVolume := JSNum.max s.peakVolume scaledVolume
  let averageVolume := JSNum.div (sumHistory volumeHistory) (.fin volumeHistory.length)
  let loud := JSNum.gt scaledVolume (.fin LOUD_THRESHOLD)
  let lastLoudEventTime := if loud then t1 else s.lastLoudEventTime
  let counted := if loud then s.loudEventCount + 1 else s.loudEventCount
  let timeSinceLoudEvent := (t2 - lastLoudEventTime) / 1000
  let loudEventRate := (counted : ℚ) / (RATE_WINDOW / 1000)
  let loudEventCount := if t3 - lastLoudEventTime > RATE_WINDOW then 0 else counted
  { volume := volume, scaledVolume := scaledVolume, peakVolume := peakVolume,
    averageVolume := averageVolume, volumeHistory := volumeHistory,
    lastLoudEventTime := lastLoudEventTime, timeSinceLoudEvent := timeSinceLoudEvent,
    loudEventCount := loudEventCount, loudEventRate := loudEventRate }

/-- The function `updateData` when its clock reads all return `now` (`updateDataReads`
with `t1 = t2 = t3 = now`); `level` is what `mic.getLevel()` returns. -/
def updateData (s : State) (level : JSNum) (now : ℚ) : State :=
  let volume := level
  let scaledVolume := JSNum.min (JSNum.mul volume (.fin VOLUME_SCALAR)) (.fin 1)
  let volumeHistory := pushHistory HISTORY_LENGTH s.volumeHistory scaledVolume
  let peakVolume := JSNum.max s.peakVolume scaledVolume
  let averageVolume := JSNum.div (sumHistory volumeHistory) (.fin volumeHistory.length)
  let loud := JSNum.gt scaledVolume (.fin LOUD_THRESHOLD)
  let lastLoudEventTime := if loud then now else s.lastLoudEventTime
  let counted := if loud then s.loudEventCount + 1 else s.loudEventCount
  let timeSinceLoudEvent := (now - lastLoudEventTime) / 1000
  let loudEventRate := (counted : ℚ) / (RATE_WINDOW / 1000)
  let loudEventCount := if now - lastLoudEventTime > RATE_WINDOW then 0 else counted
  { volume := volume, scaledVolume := scaledVolume, peakVolume := peakVolume,
    averageVolume := averageVolume, volumeHistory := volumeHistory,
    lastLoudEventTime := lastLoudEventTime, timeSinceLoudEvent := timeSinceLoudEvent,
    loudEventCount := loudEventCount, loudEventRate := loudEventRate }

/-- The `reduce((sum, vol) => sum + vol, 0)` of `updateData` in binary64 arithmetic. -/
def sumHistoryDouble (hist : List JSNum) : JSNum :=
  hist.foldl JSNum.addD (.fin 0)

/-- The function `updateData` in binary64 arithmetic: every `*`, `+`, `-` and `/` rounds
its result; `level` and the clock reads `t1`, `t2`, `t3` (as in `updateDataReads`) are
binary64 values, the clock reads far below the overflow threshold. -/
def updateDataDouble (s : State) (level : JSNum) (t1 t2 t3 : ℚ) : State :=
  let volume := level
  let scaledVolume := JSNum.min (JSNum.mulD volume (.fin VOLUME_SCALAR)) (.fin 1)
  let volumeHistory := pushHistory HISTORY_LENGTH s.volumeHistory scaledVolume
  let peakVolume := JSNum.max s.peakVolume scaledVolume
  let averageVolume :=
    JSNum.divD (sumHistoryDouble volumeHistory) (.fin volumeHistory.length)
  let loud := JSNum.gt scaledVolume (.fin LOUD_THRESHOLD)
  let lastLoudEventTime := if loud then t1 else s.lastLoudEventTime
  let counted := if loud then s.loudEventCount + 1 else s.loudEventCount
  let timeSinceLoudEvent := JSNum.roundQ (JSNum.roundQ (t2 - lastLoudEventTime) / 1000)
  let loudEventRate := JSNum.roundQ ((counted : ℚ) / JSNum.roundQ (RATE_WINDOW / 1000))
  let loudEventCount :=
    if JSNum.roundQ (t3 - lastLoudEventTime) > RATE_WINDOW then 0 else counted
  { volume := volume, scaledVolume := scaledVolume, peakVolume := peakVolume,
    averageVolume := averageVolume, volumeHistory := volumeHistory,
    lastLoudEventTime := lastLoudEventTime, timeSinceLoudEvent := timeSinceLoudEvent,
    loudEventCount := loudEventCount, loudEventRate := loudEventRate }

/-- The scaled volume `updateData` computes from a microphone level:
`min(volume * VOLUME_SCALAR, 1)`. -/
def scaled (level : JSNum) : JSNum :=
  JSNum.min (JSNum.mul level (.fin VOLUME_SCALAR)) (.fin 1)

/-- A sequence of `updateData` calls, one per `(level, now)` pair, oldest first. -/
def runUpdates (s : State) (inputs : List (JSNum × ℚ)) : State :=
  inputs.foldl (fun st i => updateData st i.1 i.2) s

/-- The sample `(level, t)` is loud: its scaled volume passes the test of `updateData`. -/
def isLoud (i : JSNum × ℚ) : Bool :=
  JSNum.gt (scaled i.1) (.fin LOUD_THRESHOLD)

/-- How many of the samples in `inputs` are loud and were taken at most `RATE_WINDOW`
milliseconds before `now`: the exact sliding count. -/
def loudWithin (inputs : List (JSNum × ℚ)) (now : ℚ) : Nat :=
  (inputs.filter (fun i => isLoud i && decide (now - i.2 ≤ RATE_WINDOW))).length

end Microphone

/-! ## Scroll sketch -/

namespace Scroll

/-- `let scrollIncrement = 1`. -/
def scrollIncrement : ℚ := 1

/-- `let maxScroll = 2000`. -/
def maxScroll : ℚ := 2000

/-- `const SPEED_WINDOW = 300` (milliseconds). -/
def SPEED_WINDOW : ℚ := 300

/-- `const SPEED_SAMPLES = 10`. -/
def SPEED_SAMPLES : Nat := 10

/-- An element of `speedBuffer`: the object `{speed, time}`. -/
structure SpeedEntry where
  speed : JSNum
  time : ℚ
  deriving DecidableEq

/-- The module-level variables of the Scroll sketch.  Touch coordinates (`clientY`) and
clock readings are finite. -/
structure State where
  scrollY : JSNum
  scrollDirection : String
  scrollState : Nat
  lastChangeTime : ℚ
  lastDirectionChangeTime : ℚ
  showData : Bool
  touchStartY : ℚ
  touchPrevY : ℚ
  isTouching : Bool
  momentum : JSNum
  lastTouchTime : ℚ
  lastTouchY : ℚ
  scrollSpeed : JSNum
  lastScrollY : JSNum
  lastScrollTime : ℚ
  speedBuffer : List SpeedEntry

/-- The state after the module-level declarations and `setup()`, run when `millis()`
is `now`. -/
def setup (now : ℚ) : State :=
  { scrollY := .fin 0, scrollDirection := "None", scrollState := 0,
    lastChangeTime := now, lastDirectionChangeTime := now, showData := true,
    touchStartY := 0, touchPrevY := 0, isTouching := false, momentum := .fin 0,
    lastTouchTime := 0, lastTouchY := 0, scrollSpeed := .fin 0, lastScrollY := .fin 0,
    lastScrollTime := 0, speedBuffer := [] }

/-- p5's `constrain(n, low, high)`, which is `Math.max(Math.min(n, high), low)`. -/
def constrain (n low high : JSNum) : JSNum :=
  JSNum.max (JSNum.min n high) low

/-- The function `updateScrollState(previousScrollY)`. -/
def updateScrollState (s : State) (previousScrollY : JSNum) (now : ℚ) : State :=
  let previousDirection := s.scrollDirection
  let scrollDirection :=
    if JSNum.gt s.scrollY previousScrollY then "Down"
    else if JSNum.lt s.scrollY previousScrollY then "Up"
    else "None"
  let scrollState :=
    if JSNum.gt s.scrollY previousScrollY then 1
    else if JSNum.lt s.scrollY previousScrollY then 2
    else 0
  let lastChangeTime :=
    if !(JSNum.strictEq s.scrollY previousScrollY) then now else s.lastChangeTime
  let lastDirectionChangeTime :=
    if scrollDirection ≠ previousDirection then now else s.lastDirectionChangeTime
  { s with scrollDirection := scrollDirection, scrollState := scrollState,
           lastChangeTime := lastChangeTime,
           lastDirectionChangeTime := lastDirectionChangeTime }

/-- The first loop of `draw`: `shift()` while the oldest entry is older than
`SPEED_WINDOW`. -/
def evictOld (currentTime : ℚ) : List SpeedEntry → List SpeedEntry
  | [] => []
  | e :: rest =>
    if currentTime - e.time > SPEED_WINDOW then evictOld currentTime rest else e :: rest

/-- The second loop of `draw`: `shift()` while the buffer holds more than
`SPEED_SAMPLES` entries. -/
def limitSamples : List SpeedEntry → List SpeedEntry
  | [] => []
  | e :: rest =>
    if (e :: rest).length > SPEED_SAMPLES then limitSamples rest else e :: rest

/-- The `reduce((sum, item) => sum + item.speed, 0)` of `draw`. -/
def sumSpeeds (buf : List SpeedEntry) : JSNum :=
  buf.foldl (fun sum item => JSNum.add sum item.speed) (.fin 0)

/-- The entry a `draw` tick at `now` pushes when `deltaTime > 0`. -/
def newEntry (s : State) (now : ℚ) : SpeedEntry :=
  { speed := JSNum.div (JSNum.sub s.scrollY s.lastScrollY) (.fin ((now - s.lastScrollTime) / 1000)),
    time := now }

/-- The speed block of `draw` (the body of `if (deltaTime > 0)`). -/
def recordSpeed (s : State) (currentTime : ℚ) : State :=
  let pushed := s.speedBuffer ++ [newEntry s currentTime]
  let speedBuffer := limitSamples (evictOld currentTime pushed)
  let scrollSpeed :=
    if speedBuffer.length > 0 then
      JSNum.div (sumSpeeds speedBuffer) (.fin speedBuffer.length)
    else .fin 0
  { s with speedBuffer := speedBuffer, scrollSpeed := scrollSpeed,
           lastScrollY := s.scrollY, lastScrollTime := currentTime }

/-- The `deltaTime` of `draw` in binary64 arithmetic. -/
def deltaTimeDouble (s : State) (now : ℚ) : ℚ :=
  JSNum.roundQ (JSNum.roundQ (now - s.lastScrollTime) / 1000)

/-- The entry a `draw` tick at `now` pushes, in binary64 arithmetic. -/
def newEntryDouble (s : State) (now : ℚ) : SpeedEntry :=
  { speed := JSNum.divD (JSNum.subD s.scrollY s.lastScrollY) (.fin (deltaTimeDouble s now)),
    time := now }

/-- The first loop of `draw` in binary64 arithmetic. -/
def evictOldDouble (currentTime : ℚ) : List SpeedEntry → List SpeedEntry
  | [] => []
  | e :: rest =>
    if JSNum.roundQ (currentTime - e.time) > SPEED_WINDOW then evictOldDouble currentTime rest
    else e :: rest

/-- The `reduce((sum, item) => sum + item.speed, 0)` of `draw` in binary64 arithmetic. -/
def sumSpeedsDouble (buf : List SpeedEntry) : JSNum :=
  buf.foldl (fun sum item => JSNum.addD sum item.speed) (.fin 0)

/-- The speed block of `draw` (the body of `if (deltaTime > 0)`) in binary64
arithmetic. -/
def recordSpeedDouble (s : State) (currentTime : ℚ) : State :=
  let pushed := s.speedBuffer ++ [newEntryDouble s currentTime]
  let speedBuffer := limitSamples (evictOldDouble currentTime pushed)
  let scrollSpeed :=
    if speedBuffer.length > 0 then
      JSNum.divD (sumSpeedsDouble speedBuffer) (.fin speedBuffer.length)
    else .fin 0
  { s with speedBuffer := speedBuffer, scrollSpeed := scrollSpeed,
           lastScrollY := s.scrollY, lastScrollTime := currentTime }

/-- The momentum block of `draw` (the body of `if (!isTouching && momentum !== 0)`). -/
def applyMomentum (s : State) (now : ℚ) : State :=
  let previousScrollY := s.scrollY
  let scrollY := JSNum.add s.scrollY s.momentum
  let decayed := JSNum.mul s.momentum (.fin (19 / 20))
  let momentum := if JSNum.lt (JSNum.abs decayed) (.fin (1 / 10)) then .fin 0 else decayed
  updateScrollState { s with scrollY := scrollY, momentum := momentum } previousScrollY now

/-- The state-changing part of `draw` (everything before the canvas calls); `now` is
what `millis()` returns during the tick. -/
def draw (s : State) (now : ℚ) : State :=
  let currentTime := now
  let deltaTime := (currentTime - s.lastScrollTime) / 1000
  let s1 := if deltaTime > 0 then recordSpeed s currentTime else s
  let s2 :=
    if !s1.isTouching && !(JSNum.strictEq s1.momentum (.fin 0)) then applyMomentum s1 now
    else s1
  { s2 with scrollY := constrain s2.scrollY (.fin 0) (.fin maxScroll) }

/-- The momentum block of `draw` in binary64 arithmetic; the literals `0.95` and `0.1`
are the binary64 values nearest to them. -/
def applyMomentumDouble (s : State) (now : ℚ) : State :=
  let previousScrollY := s.scrollY
  let scrollY := JSNum.addD s.scrollY s.momentum
  let decayed := JSNum.mulD s.momentum (JSNum.toDouble (19 / 20))
  let momentum :=
    if JSNum.lt (JSNum.abs decayed) (JSNum.toDouble (1 / 10)) then .fin 0 else decayed
  updateScrollState { s with scrollY := scrollY, momentum := momentum } previousScrollY now

/-- The state-changing part of `draw` in binary64 arithmetic. -/
def drawDouble (s : State) (now : ℚ) : State :=
  let currentTime := now
  let deltaTime := deltaTimeDouble s currentTime
  let s1 := if deltaTime > 0 then recordSpeedDouble s currentTime else s
  let s2 :=
    if !s1.isTouching && !(JSNum.strictEq s1.momentum (.fin 0)) then applyMomentumDouble s1 now
    else s1
  { s2 with scrollY := constrain s2.scrollY (.fin 0) (.fin maxScroll) }

/-- The handler `handleTouchStart`; `clientY` is `event.touches[0].clientY`. -/
def handleTouchStart (s : State) (clientY : ℚ) (now : ℚ) : State :=
  { s with isTouching := true, lastScrollTime := now, lastScrollY := s.scrollY,
           touchStartY := clientY, touchPrevY := clientY, lastTouchY := clientY,
           lastTouchTime := now, momentum := .fin 0 }

/-- The handler `handleTouchMove`; `touches` are the `clientY` of `event.touches`. -/
def handleTouchMove (s : State) (touches : List ℚ) (now : ℚ) : State :=
  match touches with
  | [] => s
  | currentY :: _ =>
    let deltaY := s.touchPrevY - currentY
    let previousScrollY := s.scrollY
    let scrollY := JSNum.add s.scrollY (.fin (deltaY * (6 / 5)))
    updateScrollState
      { s with scrollY := scrollY, touchPrevY := currentY, lastTouchY := currentY,
               lastTouchTime := now }
      previousScrollY now

/-- The handler `handleTouchEnd`. -/
def handleTouchEnd (s : State) (now : ℚ) : State :=
  let touchTime := now - s.lastTouchTime
  let touchDelta := s.lastTouchY - s.touchStartY
  let momentum :=
    if touchTime < 100 then
      JSNum.mul (JSNum.neg (JSNum.div (.fin touchDelta) (.fin touchTime))) (.fin 2)
    else s.momentum
  { s with isTouching := false, momentum := momentum }

/-- The handler `mouseWheel`; `delta` is `event.delta`. -/
def mouseWheel (s : State) (delta : ℚ) (now : ℚ) : State :=
  let previousScrollY := s.scrollY
  let scrollY :=
    if delta > 0 then JSNum.add s.scrollY (.fin scrollIncrement)
    else if delta < 0 then JSNum.sub s.scrollY (.fin scrollIncrement)
    else s.scrollY
  updateScrollState { s with scrollY := scrollY, lastScrollTime := now } previousScrollY now

/-- The handler `keyPressed`; `key` is p5's `key`. -/
def keyPressed (s : State) (key : String) : State :=
  if key = " " then { s with showData := !s.showData } else s

/-- What the browser delivers to the sketch: a `draw` tick or one of the events it
listens to, each with the clock reading of its handler. -/
inductive Event where
  | tick (now : ℚ)
  | touchStart (now : ℚ) (clientY : ℚ)
  | touchMove (now : ℚ) (touches : List ℚ)
  | touchEnd (now : ℚ)
  | wheel (now : ℚ) (delta : ℚ)
  | key (k : String)

/-- The sketch's reaction to one event. -/
def step (s : State) : Event → State
  | .tick now => draw s now
  | .touchStart now clientY => handleTouchStart s clientY now
  | .touchMove now touches => handleTouchMove s touches now
  | .touchEnd now => handleTouchEnd s now
  | .wheel now delta => mouseWheel s delta now
  | .key k => keyPressed s k

/-- The state after a sequence of events, oldest first. -/
def run (s : State) (evs : List Event) : State :=
  evs.foldl step s

/-- The `currentTime` values of the `draw` ticks of an event sequence, in order. -/
def tickTimes : List Event → List ℚ
  | [] => []
  | .tick now :: evs => now :: tickTimes evs
  | _ :: evs => tickTimes evs

/-- The entries pushed onto `speedBuffer` during an event sequence started in `s`, in
the order they were pushed: one for each `draw` tick with `deltaTime > 0`. -/
def recorded : State → List Event → List SpeedEntry
  | _, [] => []
  | s, .tick now :: evs =>
    if (now - s.lastScrollTime) / 1000 > 0 then
      newEntry s now :: recorded (step s (.tick now)) evs
    else recorded (step s (.tick now)) evs
  | s, ev :: evs => recorded (step s ev) evs

end Scroll

/-- The number is finite and lies in the closed interval from 0 to 1. -/
def InUnit (x : JSNum) : Prop :=
  ∃ q : ℚ, x = .fin q ∧ 0 ≤ q ∧ q ≤ 1

/-! ## The p5 functions the touch sketches call -/

/-- The p5 functions `dist(x1, y1, x2, y2)` and `atan2(y, x)`, which the sketches call
and do not define; they are parameters of the embedding. -/
structure P5 where
  dist : ℚ → ℚ → ℚ → ℚ → ℚ
  atan2 : ℚ → ℚ → ℚ

/-! ## Single_Touch sketch -/

namespace SingleTouch

/-- `const interactionWindow = 3000` (milliseconds). -/
def interactionWindow : ℚ := 3000

/-- The module-level variables of the Single_Touch sketch. -/
structure State where
  toggleState : Bool
  lastInteractionTime : ℚ
  timeSinceLastInteraction : ℚ
  totalInteractions : Nat
  interactionTimes : List ℚ
  interactionsPerSecond : ℚ
  lastInteractionX : ℚ
  lastInteractionY : ℚ
  prevInteractionX : ℚ
  prevInteractionY : ℚ
  distanceBetweenInteractions : ℚ
  angleBetweenInteractions : ℚ

/-- The values the module-level declarations give the variables. -/
def init : State :=
  { toggleState := false, lastInteractionTime := 0, timeSinceLastInteraction := 0,
    totalInteractions := 0, interactionTimes := [], interactionsPerSecond := 0,
    lastInteractionX := 0, lastInteractionY := 0, prevInteractionX := 0,
    prevInteractionY := 0, distanceBetweenInteractions := 0, angleBetweenInteractions := 0 }

/-- The function `getInteractionData`; `now` is what `millis()` returns during the call. -/
def getInteractionData (p5 : P5) (s : State) (now : ℚ) : State :=
  let timeSinceLastInteraction := (now - s.lastInteractionTime) / 1000
  let currentTime := now
  let interactionTimes :=
    s.interactionTimes.filter (fun time => decide (currentTime - time ≤ interactionWindow))
  let interactionsPerSecond := (interactionTimes.length : ℚ) / (interactionWindow / 1000)
  let distanceBetweenInteractions :=
    p5.dist s.prevInteractionX s.prevInteractionY s.lastInteractionX s.lastInteractionY
  let angleBetweenInteractions :=
    p5.atan2 (s.lastInteractionY - s.prevInteractionY) (s.lastInteractionX - s.prevInteractionX)
  { s with timeSinceLastInteraction := timeSinceLastInteraction,
           interactionTimes := interactionTimes,
           interactionsPerSecond := interactionsPerSecond,
           distanceBetweenInteractions := distanceBetweenInteractions,
           angleBetweenInteractions := angleBetweenInteractions }

/-- The function `handleInteraction(x, y)`; `now` is what `millis()` returns during the
call. -/
def handleInteraction (s : State) (x y : ℚ) (now : ℚ) : State :=
  { s with toggleState := !s.toggleState,
           totalInteractions := s.totalInteractions + 1,
           lastInteractionTime := now,
           prevInteractionX := s.lastInteractionX,
           prevInteractionY := s.lastInteractionY,
           lastInteractionX := x,
           lastInteractionY := y,
           interactionTimes := s.interactionTimes ++ [now] }

/-- The handler `touchStarted`; `touches` are the `(x, y)` of p5's `touches`. -/
def touchStarted (s : State) (touches : List (ℚ × ℚ)) (now : ℚ) : State :=
  match touches with
  | [] => s
  | t :: _ => handleInteraction s t.1 t.2 now

/-- The handler `mousePressed`. -/
def mousePressed (s : State) (mouseX mouseY : ℚ) (now : ℚ) : State :=
  handleInteraction s mouseX mouseY now

/-- What the browser delivers to the sketch: a `draw` frame, a touch start or a mouse
press, each with the clock reading of its handler. -/
inductive Event where
  | frame (now : ℚ)
  | touch (now : ℚ) (touches : List (ℚ × ℚ))
  | mouse (now : ℚ) (mouseX mouseY : ℚ)

/-- The sketch's reaction to one event; a frame runs `draw`, whose only state change is
`getInteractionData`. -/
def step (p5 : P5) (s : State) : Event → State
  | .frame now => getInteractionData p5 s now
  | .touch now touches => touchStarted s touches now
  | .mouse now mouseX mouseY => mousePressed s mouseX mouseY now

/-- The state after a sequence of events, oldest first. -/
def run (p5 : P5) (s : State) (evs : List Event) : State :=
  evs.foldl (step p5) s

/-- A sequence of `handleInteraction(x, y)` calls, given as `(x, y, now)`, oldest first. -/
def interact (s : State) (calls : List (ℚ × ℚ × ℚ)) : State :=
  calls.foldl (fun st c => handleInteraction st c.1 c.2.1 c.2.2) s

end SingleTouch

/-! ## Multi_Touch sketch -/

namespace MultiTouch

/-- An element of p5's `touches`, and of `touchPoints`: the object `{x, y, id}`. -/
structure TouchPoint where
  x : ℚ
  y : ℚ
  id : Int
  deriving DecidableEq

/-- An element of `touchDistances`: the object `{pair, distance}`. -/
structure DistanceEntry where
  pair : String
  distance : ℚ
  deriving DecidableEq

/-- The module-level variables of the Multi_Touch sketch. -/
structure State where
  touchPoints : List TouchPoint
  totalTouches : Nat
  lastTouchTime : ℚ
  timeSinceLastTouch : ℚ
  touchDistances : List DistanceEntry
  totalLength : ℚ

/-- The values the module-level declarations give the variables. -/
def init : State :=
  { touchPoints := [], totalTouches := 0, lastTouchTime := 0, timeSinceLastTouch := 0,
    touchDistances := [], totalLength := 0 }

/-- The loop `for (let k = lo; k < hi; k++) acc = body(k, acc)`. -/
def forLoop {σ : Type} (lo hi : Nat) (body : Nat → σ → σ) (acc : σ) : σ :=
  (List.range' lo (hi - lo)).foldl (fun a k => body k a) acc

/-- The function `calculateDistance(point1, point2)`. -/
def calculateDistance (p5 : P5) (point1 point2 : TouchPoint) : ℚ :=
  p5.dist point1.x point1.y point2.x point2.y

/-- The array element `touchPoints[k]`; the loops only read indices below the length. -/
def pointAt (touchPoints : List TouchPoint) (k : Nat) : TouchPoint :=
  touchPoints.getD k { x := 0, y := 0, id := 0 }

/-- The label `(i+1) + "-" + (j+1)` of the pair of indices `i`, `j`. -/
def pairLabel (i j : Nat) : String :=
  toString (i + 1) ++ "-" ++ toString (j + 1)

/-- The body of the inner loop of `getTouchData`, on the pair `(touchDistances, totalLength)`. -/
def pairBody (p5 : P5) (touchPoints : List TouchPoint) (i j : Nat)
    (acc : List DistanceEntry × ℚ) : List DistanceEntry × ℚ :=
  let d := calculateDistance p5 (pointAt touchPoints i) (pointAt touchPoints j)
  (acc.1 ++ [{ pair := pairLabel i j, distance := d }], acc.2 + d)

/-- The object the inner loop pushes onto `touchDistances` for the indices `i`, `j`. -/
def pairEntry (p5 : P5) (touchPoints : List TouchPoint) (i j : Nat) : DistanceEntry :=
  { pair := pairLabel i j,
    distance := calculateDistance p5 (pointAt touchPoints i) (pointAt touchPoints j) }

/-- The function `getTouchData`; `touches` is p5's `touches` and `now` is what `millis()`
returns during the call. -/
def getTouchData (p5 : P5) (s : State) (touches : List TouchPoint) (now : ℚ) : State :=
  let timeSinceLastTouch := (now - s.lastTouchTime) / 1000
  let touchPoints := touches.map (fun t => ({ x := t.x, y := t.y, id := t.id } : TouchPoint))
  let pairs :=
    forLoop 0 touchPoints.length
      (fun i acc => forLoop (i + 1) touchPoints.length (pairBody p5 touchPoints i) acc)
      (([] : List DistanceEntry), (0 : ℚ))
  { s with timeSinceLastTouch := timeSinceLastTouch, touchPoints := touchPoints,
           touchDistances := pairs.1, totalLength := pairs.2 }

/-- The handler `touchStarted`. -/
def touchStarted (s : State) (now : ℚ) : State :=
  { s with totalTouches := s.totalTouches + 1, lastTouchTime := now }

/-- The index pairs `(i, j)` with `i < j < n`, in lexicographic order. -/
def indexPairs (n : Nat) : List (Nat × Nat) :=
  (List.range n).flatMap (fun i => (List.range' (i + 1) (n - (i + 1))).map (fun j => (i, j)))

end MultiTouch

/-! ## Facts about the number model -/

namespace JSNum

theorem max_eq_or (a b : JSNum) : max a b = a ∨ max a b = b := by
  cases a <;> cases b <;> simp only [max] <;> (try split_ifs) <;> simp

theorem lt_max_self (a b : JSNum) : lt (max a b) a = false := by
  cases a <;> cases b <;> simp only [max] <;> (try split_ifs) <;> simp_all [lt]
  linarith

theorem lt_max_right (a b : JSNum) : lt (max a b) b = false := by
  cases a <;> cases b <;> simp only [max] <;> (try split_ifs) <;> simp_all [lt]

theorem lt_max_of_lt (p b v : JSNum) (h : lt p v = false) : lt (max p b) v = false := by
  cases p <;> cases b <;> cases v <;> simp only [max] <;> (try split_ifs) <;> simp_all [lt]
  linarith

theorem min_fin (a b : ℚ) : min (fin a) (fin b) = fin (Min.min a b) := by
  simp only [min, lt]
  rcases le_total a b with h | h
  · by_cases hb : b < a
    · exact absurd hb (not_lt.2 h)
    · simp [hb, h]
  · by_cases hb : b < a
    · simp [hb, h]
    · have : a = b := le_antisymm (not_lt.1 hb) h
      simp [this]

theorem max_fin (a b : ℚ) : max (fin a) (fin b) = fin (Max.max a b) := by
  simp only [max, lt]
  by_cases hb : a < b
  · simp [hb, le_of_lt hb]
  · simp [hb, not_lt.1 hb]

theorem foldl_max_fin (qs : List ℚ) (a : ℚ) :
    (qs.map fin).foldl max (fin a) = fin (qs.foldl Max.max a) := by
  induction qs generalizing a with
  | nil => rfl
  | cons q qs ih => simp only [List.map_cons, List.foldl_cons, max_fin, ih]

end JSNum

/-! ## Microphone: the history window and the peak -/

namespace Microphone

theorem pushHistory_eq (cap : Nat) (hist : List JSNum) (v : JSNum) :
    pushHistory cap hist v
      = if hist.length + 1 > cap then (hist ++ [v]).drop 1 else hist ++ [v] := by
  simp [pushHistory]

theorem foldl_pushHistory (cap : Nat) (xs : List JSNum) :
    xs.foldl (pushHistory cap) [] = xs.drop (xs.length - cap) := by
  induction xs using List.reverseRecOn with
  | nil => simp
  | append_singleton xs x ih =>
    rw [List.foldl_append, List.foldl_cons, List.foldl_nil, ih, pushHistory_eq]
    have hle : xs.length - cap ≤ xs.length := Nat.sub_le _ _
    rw [← List.drop_append_of_le_length hle]
    simp only [List.length_drop, List.length_append, List.length_singleton, List.drop_drop]
    split_ifs with h
    · congr 1; omega
    · congr 1; omega

theorem runUpdates_snoc (s : State) (xs : List (JSNum × ℚ)) (i : JSNum × ℚ) :
    runUpdates s (xs ++ [i]) = updateData (runUpdates s xs) i.1 i.2 := by
  simp [runUpdates, List.foldl_append]

theorem runUpdates_history (s : State) (inputs : List (JSNum × ℚ)) :
    (runUpdates s inputs).volumeHistory
      = (inputs.map (fun i => scaled i.1)).foldl (pushHistory HISTORY_LENGTH) s.volumeHistory := by
  induction inputs using List.reverseRecOn with
  | nil => simp [runUpdates]
  | append_singleton xs x ih =>
    rw [runUpdates_snoc, List.map_append, List.foldl_append, ← ih]
    rfl

theorem updateData_peak (s : State) (level : JSNum) (now : ℚ) :
    (updateData s level now).peakVolume = JSNum.max s.peakVolume (scaled level) := rfl

theorem runUpdates_peak (s : State) (inputs : List (JSNum × ℚ)) :
    (runUpdates s inputs).peakVolume
      = (inputs.map (fun i => scaled i.1)).foldl JSNum.max s.peakVolume := by
  induction inputs using List.reverseRecOn with
  | nil => simp [runUpdates]
  | append_singleton xs x ih =>
    rw [runUpdates_snoc, List.map_append, List.foldl_append, ← ih]
    rfl

theorem foldl_max_mem (p : JSNum) (vs : List JSNum) :
    vs.foldl JSNum.max p ∈ p :: vs := by
  induction vs using List.reverseRecOn with
  | nil => simp
  | append_singleton xs x ih =>
    rw [List.foldl_append, List.foldl_cons, List.foldl_nil]
    rcases JSNum.max_eq_or (xs.foldl JSNum.max p) x with h | h
    · rw [h]
      rcases List.mem_cons.1 ih with h1 | h1
      · simp [h1]
      · simp [h1]
    · rw [h]; simp

theorem foldl_max_upper (p : JSNum) (vs : List JSNum) :
    ∀ v ∈ p :: vs, JSNum.lt (vs.foldl JSNum.max p) v = false := by
  induction vs using List.reverseRecOn with
  | nil => intro v hv; simp at hv; subst hv; cases v <;> simp [JSNum.lt]
  | append_singleton xs x ih =>
    intro v hv
    rw [List.foldl_append, List.foldl_cons, List.foldl_nil]
    have hv2 : v ∈ p :: xs ∨ v = x := by
      simp only [List.mem_cons, List.mem_append, List.mem_singleton] at hv ⊢
      tauto
    rcases hv2 with h | h
    · exact JSNum.lt_max_of_lt _ _ _ (ih v h)
    · subst h; exact JSNum.lt_max_right _ _

/-- C1: after any sequence of `updateData` calls from the initial state, `volumeHistory`
is the last `min(n, HISTORY_LENGTH)` scaled samples in recording order, so its length is
`min(n, HISTORY_LENGTH)` and never exceeds `HISTORY_LENGTH`; the same window update with
any cap keeps the last `min(n, cap)` values, and with cap 3 the values 1, 2, 3, 4 leave
`[2, 3, 4]`. -/
theorem history_is_last_samples (inputs : List (JSNum × ℚ)) :
    (runUpdates init inputs).volumeHistory
        = (inputs.map (fun i => scaled i.1)).drop
            (inputs.length - min inputs.length HISTORY_LENGTH)
      ∧ (runUpdates init inputs).volumeHistory.length = min inputs.length HISTORY_LENGTH
      ∧ (runUpdates init inputs).volumeHistory.length ≤ HISTORY_LENGTH
      ∧ (∀ (cap : Nat) (xs : List JSNum),
          xs.foldl (pushHistory cap) [] = xs.drop (xs.length - min xs.length cap))
      ∧ [JSNum.fin 1, .fin 2, .fin 3, .fin 4].foldl (pushHistory 3) []
          = [.fin 2, .fin 3, .fin 4] := by
  have hfold : ∀ (cap : Nat) (xs : List JSNum),
      xs.foldl (pushHistory cap) [] = xs.drop (xs.length - min xs.length cap) := by
    intro cap xs
    rw [foldl_pushHistory]
    congr 1
    omega
  have hhist : (runUpdates init inputs).volumeHistory
        = (inputs.map (fun i => scaled i.1)).drop
            (inputs.length - min inputs.length HISTORY_LENGTH) := by
    rw [runUpdates_history]
    have := hfold HISTORY_LENGTH (inputs.map (fun i => scaled i.1))
    simpa [init] using this
  refine ⟨hhist, ?_, ?_, hfold, ?_⟩
  · rw [hhist, List.length_drop, List.length_map]
    omega
  · rw [hhist, List.length_drop, List.length_map]
    omega
  · simp [pushHistory]

/-- C3: after any sequence of `updateData` calls from the initial state, `peakVolume` is
the `max` fold of 0 and every scaled sample recorded (evicted or not): it is one of these
values and none of them is greater; no `updateData` call makes `peakVolume` smaller
than it was; and on finite levels it is the greatest of 0 and the scaled samples as
rationals. -/
theorem peak_is_running_maximum (inputs : List (JSNum × ℚ)) :
    (runUpdates init inputs).peakVolume
        = (inputs.map (fun i => scaled i.1)).foldl JSNum.max (.fin 0)
      ∧ (runUpdates init inputs).peakVolume
          ∈ JSNum.fin 0 :: inputs.map (fun i => scaled i.1)
      ∧ (∀ v ∈ JSNum.fin 0 :: inputs.map (fun i => scaled i.1),
          JSNum.lt (runUpdates init inputs).peakVolume v = false)
      ∧ (∀ (s : State) (level : JSNum) (now : ℚ),
          JSNum.lt (updateData s level now).peakVolume s.peakVolume = false)
      ∧ (∀ ls : List (ℚ × ℚ),
          (runUpdates init (ls.map (fun i => (JSNum.fin i.1, i.2)))).peakVolume
            = .fin ((ls.map (fun i => min (i.1 * VOLUME_SCALAR) 1)).foldl max 0)) := by
  have h := runUpdates_peak init inputs
  refine ⟨h, ?_, ?_, ?_, ?_⟩
  · rw [h]; exact foldl_max_mem _ _
  · rw [h]; exact foldl_max_upper _ _
  · intro s level now
    rw [updateData_peak]
    exact JSNum.lt_max_self _ _
  · intro ls
    rw [runUpdates_peak, List.map_map]
    have hmap : ls.map ((fun i : JSNum × ℚ => scaled i.1) ∘ fun i => (JSNum.fin i.1, i.2))
        = (ls.map (fun i => min (i.1 * VOLUME_SCALAR) 1)).map JSNum.fin := by
      rw [List.map_map]
      apply List.map_congr_left
      intro i _
      simp [scaled, JSNum.mul, JSNum.min_fin]
    rw [hmap]
    exact JSNum.foldl_max_fin _ _

end Microphone

end ExperimentalUX

/-! ## Finite values and means -/

namespace ExperimentalUX

namespace JSNum

theorem foldl_add_fin (qs : List ℚ) (a : ℚ) :
    (qs.map fin).foldl add (fin a) = fin (a + qs.sum) := by
  induction qs generalizing a with
  | nil => simp
  | cons q qs ih => simp [List.foldl_cons, add, ih, add_assoc]

theorem exists_of_isFinite (v : JSNum) (h : v.isFinite = true) : ∃ q, v = fin q := by
  cases v <;> simp [isFinite] at h
  exact ⟨_, rfl⟩

theorem exists_map_fin (l : List JSNum) (h : ∀ v ∈ l, v.isFinite = true) :
    ∃ qs : List ℚ, l = qs.map fin := by
  induction l with
  | nil => exact ⟨[], rfl⟩
  | cons v l ih =>
    obtain ⟨q, hq⟩ := exists_of_isFinite v (h v (List.mem_cons_self _ _))
    obtain ⟨qs, hqs⟩ := ih (fun w hw => h w (List.mem_cons_of_mem _ hw))
    exact ⟨q :: qs, by simp [hq, hqs]⟩

theorem div_fin_length (a : ℚ) (n : Nat) (hn : n ≠ 0) :
    div (fin a) (fin (n : ℚ)) = fin (a / n) := by
  have : (n : ℚ) ≠ 0 := by exact_mod_cast hn
  simp [div, this]

end JSNum

theorem exists_least (vs : List ℚ) (h : vs ≠ []) : ∃ lo ∈ vs, ∀ v ∈ vs, lo ≤ v := by
  induction vs with
  | nil => exact absurd rfl h
  | cons x xs ih =>
    by_cases hx : xs = []
    · subst hx; exact ⟨x, by simp, by simp⟩
    · obtain ⟨lo, hlo, hle⟩ := ih hx
      rcases le_total x lo with hxl | hxl
      · refine ⟨x, by simp, ?_⟩
        intro v hv
        rcases List.mem_cons.1 hv with rfl | hv
        · exact le_refl _
        · exact le_trans hxl (hle v hv)
      · refine ⟨lo, List.mem_cons_of_mem _ hlo, ?_⟩
        intro v hv
        rcases List.mem_cons.1 hv with rfl | hv
        · exact hxl
        · exact hle v hv

theorem exists_greatest (vs : List ℚ) (h : vs ≠ []) : ∃ hi ∈ vs, ∀ v ∈ vs, v ≤ hi := by
  induction vs with
  | nil => exact absurd rfl h
  | cons x xs ih =>
    by_cases hx : xs = []
    · subst hx; exact ⟨x, by simp, by simp⟩
    · obtain ⟨hi, hhi, hle⟩ := ih hx
      rcases le_total hi x with hxl | hxl
      · refine ⟨x, by simp, ?_⟩
        intro v hv
        rcases List.mem_cons.1 hv with rfl | hv
        · exact le_refl _
        · exact le_trans (hle v hv) hxl
      · refine ⟨hi, List.mem_cons_of_mem _ hhi, ?_⟩
        intro v hv
        rcases List.mem_cons.1 hv with rfl | hv
        · exact hxl
        · exact hle v hv

theorem sum_le_length_mul (vs : List ℚ) (hi : ℚ) (h : ∀ v ∈ vs, v ≤ hi) :
    vs.sum ≤ vs.length * hi := by
  induction vs with
  | nil => simp
  | cons x xs ih =>
    have h1 := h x (List.mem_cons_self _ _)
    have h2 := ih (fun v hv => h v (List.mem_cons_of_mem _ hv))
    simp only [List.sum_cons, List.length_cons, Nat.cast_add, Nat.cast_one]
    linarith

theorem length_mul_le_sum (vs : List ℚ) (lo : ℚ) (h : ∀ v ∈ vs, lo ≤ v) :
    vs.length * lo ≤ vs.sum := by
  induction vs with
  | nil => simp
  | cons x xs ih =>
    have h1 := h x (List.mem_cons_self _ _)
    have h2 := ih (fun v hv => h v (List.mem_cons_of_mem _ hv))
    simp only [List.sum_cons, List.length_cons, Nat.cast_add, Nat.cast_one]
    linarith

theorem between_mean (vs : List ℚ) (h : vs ≠ []) : Between (vs.sum / vs.length) vs := by
  obtain ⟨lo, hlo, hle⟩ := exists_least vs h
  obtain ⟨hi, hhi, hge⟩ := exists_greatest vs h
  have hpos : (0 : ℚ) < vs.length := by
    have : 0 < vs.length := List.length_pos.2 h
    exact_mod_cast this
  refine ⟨lo, hlo, hi, hhi, fun v hv => ⟨hle v hv, hge v hv⟩, ?_, ?_⟩
  · rw [le_div_iff₀ hpos]
    have := length_mul_le_sum vs lo hle
    linarith
  · rw [div_le_iff₀ hpos]
    have := sum_le_length_mul vs hi hge
    linarith

end ExperimentalUX

/-! ## The rolling averages -/

namespace ExperimentalUX

namespace Microphone

theorem scaled_fin (l : ℚ) : scaled (.fin l) = .fin (min (l * VOLUME_SCALAR) 1) := by
  simp [scaled, JSNum.mul, JSNum.min_fin]

theorem updateData_history (s : State) (level : JSNum) (now : ℚ) :
    (updateData s level now).volumeHistory
      = pushHistory HISTORY_LENGTH s.volumeHistory (scaled level) := rfl

theorem updateData_average (s : State) (level : JSNum) (now : ℚ) :
    (updateData s level now).averageVolume
      = JSNum.div (sumHistory (updateData s level now).volumeHistory)
          (.fin ((updateData s level now).volumeHistory.length : ℚ)) := rfl

theorem pushHistory_ne_nil (hist : List JSNum) (v : JSNum) :
    pushHistory HISTORY_LENGTH hist v ≠ [] := by
  intro h
  have hl := congrArg List.length h
  rw [pushHistory_eq] at hl
  simp only [HISTORY_LENGTH] at hl
  split_ifs at hl with hc
  · simp only [List.length_drop, List.length_append, List.length_singleton,
      List.length_nil] at hl
    omega
  · simp at hl

theorem pushHistory_mem (cap : Nat) (hist : List JSNum) (v w : JSNum)
    (h : w ∈ pushHistory cap hist v) : w ∈ hist ∨ w = v := by
  rw [pushHistory_eq] at h
  split_ifs at h
  · have := List.mem_of_mem_drop h
    simpa using this
  · simpa using h

theorem sumHistory_fin (qs : List ℚ) : sumHistory (qs.map .fin) = .fin qs.sum := by
  simp [sumHistory, JSNum.foldl_add_fin]

theorem average_fin (s : State) (level : ℚ) (now : ℚ)
    (hhist : ∀ v ∈ s.volumeHistory, v.isFinite = true) :
    ∃ (ws : List ℚ) (a : ℚ),
      (updateData s (.fin level) now).volumeHistory = ws.map .fin
        ∧ (updateData s (.fin level) now).averageVolume = .fin a
        ∧ Between a ws := by
  have hfin : ∀ w ∈ (updateData s (.fin level) now).volumeHistory, w.isFinite = true := by
    intro w hw
    rw [updateData_history] at hw
    rcases pushHistory_mem _ _ _ _ hw with h | h
    · exact hhist w h
    · rw [h, scaled_fin]; rfl
  obtain ⟨ws, hws⟩ := JSNum.exists_map_fin _ hfin
  have hne : ws ≠ [] := by
    intro h
    rw [h, updateData_history] at hws
    exact pushHistory_ne_nil _ _ hws
  refine ⟨ws, ws.sum / ws.length, hws, ?_, between_mean ws hne⟩
  rw [updateData_average, hws, sumHistory_fin, List.length_map]
  exact JSNum.div_fin_length _ _ (by simpa using hne)

end Microphone

namespace Scroll

theorem draw_speedBuffer (s : State) (now : ℚ) :
    (draw s now).speedBuffer
      = if (now - s.lastScrollTime) / 1000 > 0 then (recordSpeed s now).speedBuffer
        else s.speedBuffer := by
  unfold draw
  simp only []
  split_ifs <;> simp [applyMomentum, updateScrollState]

theorem draw_scrollSpeed (s : State) (now : ℚ) :
    (draw s now).scrollSpeed
      = if (now - s.lastScrollTime) / 1000 > 0 then (recordSpeed s now).scrollSpeed
        else s.scrollSpeed := by
  unfold draw
  simp only []
  split_ifs <;> simp [applyMomentum, updateScrollState]

theorem limitSamples_eq_drop (l : List SpeedEntry) :
    limitSamples l = l.drop (l.length - SPEED_SAMPLES) := by
  induction l with
  | nil => simp [limitSamples]
  | cons e rest ih =>
    rw [limitSamples]
    split_ifs with h
    · rw [ih]
      have : (e :: rest).length - SPEED_SAMPLES = (rest.length - SPEED_SAMPLES) + 1 := by
        simp only [List.length_cons] at h ⊢; omega
      rw [this, List.drop_succ_cons]
    · have : (e :: rest).length - SPEED_SAMPLES = 0 := by omega
      rw [this, List.drop_zero]

theorem evictOld_suffix (t : ℚ) (l : List SpeedEntry) : evictOld t l <:+ l := by
  induction l with
  | nil => simp [evictOld]
  | cons e rest ih =>
    rw [evictOld]
    split_ifs
    · exact ih.trans (List.suffix_cons _ _)
    · exact List.suffix_refl _

theorem limitSamples_suffix (l : List SpeedEntry) : limitSamples l <:+ l := by
  rw [limitSamples_eq_drop]; exact List.drop_suffix _ _

theorem evictOld_snoc_ne_nil (t : ℚ) (l : List SpeedEntry) (e : SpeedEntry)
    (he : ¬ t - e.time > SPEED_WINDOW) : evictOld t (l ++ [e]) ≠ [] := by
  induction l with
  | nil => simp [evictOld, he]
  | cons x rest ih =>
    rw [List.cons_append, evictOld]
    split_ifs
    · exact ih
    · simp

theorem limitSamples_ne_nil (l : List SpeedEntry) (h : l ≠ []) : limitSamples l ≠ [] := by
  intro hn
  have hl := congrArg List.length hn
  rw [limitSamples_eq_drop, List.length_drop] at hl
  have : 0 < l.length := List.length_pos.2 h
  simp [SPEED_SAMPLES] at hl
  omega

theorem recordSpeed_buffer (s : State) (now : ℚ) :
    (recordSpeed s now).speedBuffer
      = limitSamples (evictOld now (s.speedBuffer ++ [newEntry s now])) := rfl

theorem recordSpeed_buffer_ne_nil (s : State) (now : ℚ) :
    (recordSpeed s now).speedBuffer ≠ [] := by
  rw [recordSpeed_buffer]
  apply limitSamples_ne_nil
  apply evictOld_snoc_ne_nil
  simp [newEntry, SPEED_WINDOW]

theorem recordSpeed_scrollSpeed (s : State) (now : ℚ) :
    (recordSpeed s now).scrollSpeed
      = JSNum.div (sumSpeeds (recordSpeed s now).speedBuffer)
          (.fin ((recordSpeed s now).speedBuffer.length : ℚ)) := by
  have h : 0 < (recordSpeed s now).speedBuffer.length :=
    List.length_pos.2 (recordSpeed_buffer_ne_nil s now)
  rw [recordSpeed_buffer] at h
  simp only [recordSpeed]
  rw [if_pos h]

theorem sumSpeeds_eq (buf : List SpeedEntry) :
    sumSpeeds buf = (buf.map (fun e => e.speed)).foldl JSNum.add (.fin 0) := by
  simp [sumSpeeds, List.foldl_map]

theorem recordSpeed_mem (s : State) (now : ℚ) (e : SpeedEntry)
    (h : e ∈ (recordSpeed s now).speedBuffer) : e ∈ s.speedBuffer ∨ e = newEntry s now := by
  rw [recordSpeed_buffer] at h
  have h1 := (limitSamples_suffix _).subset h
  have h2 := (evictOld_suffix _ _).subset h1
  simpa using h2

theorem speed_fin (s : State) (now : ℚ) (hrec : (now - s.lastScrollTime) / 1000 > 0)
    (hbuf : ∀ e ∈ s.speedBuffer, e.speed.isFinite = true)
    (hy : s.scrollY.isFinite = true) (hly : s.lastScrollY.isFinite = true) :
    ∃ (vs : List ℚ) (a : ℚ),
      (draw s now).speedBuffer.map (fun e => e.speed) = vs.map .fin
        ∧ (draw s now).scrollSpeed = .fin a
        ∧ Between a vs := by
  rw [draw_speedBuffer, draw_scrollSpeed, if_pos hrec, if_pos hrec]
  obtain ⟨y, hy⟩ := JSNum.exists_of_isFinite _ hy
  obtain ⟨ly, hly⟩ := JSNum.exists_of_isFinite _ hly
  have hnew : (newEntry s now).speed.isFinite = true := by
    have hne : (now - s.lastScrollTime) / 1000 ≠ 0 := ne_of_gt hrec
    simp [newEntry, hy, hly, JSNum.sub, JSNum.neg, JSNum.add, JSNum.div, hne, JSNum.isFinite]
  have hfin : ∀ v ∈ (recordSpeed s now).speedBuffer.map (fun e => e.speed),
      v.isFinite = true := by
    intro v hv
    obtain ⟨e, he, rfl⟩ := List.mem_map.1 hv
    rcases recordSpeed_mem s now e he with h | h
    · exact hbuf e h
    · rw [h]; exact hnew
  obtain ⟨vs, hvs⟩ := JSNum.exists_map_fin _ hfin
  have hlen : (recordSpeed s now).speedBuffer.length = vs.length := by
    have := congrArg List.length hvs
    simpa using this
  have hne : vs ≠ [] := by
    intro h
    have h0 : (recordSpeed s now).speedBuffer.length = 0 := by rw [hlen, h]; rfl
    exact recordSpeed_buffer_ne_nil s now (List.length_eq_zero.1 h0)
  refine ⟨vs, vs.sum / vs.length, hvs, ?_, between_mean vs hne⟩
  rw [recordSpeed_scrollSpeed, sumSpeeds_eq, hvs, JSNum.foldl_add_fin, hlen, zero_add]
  exact JSNum.div_fin_length _ _ (by simpa using hne)

end Scroll

/-- With exact rational arithmetic in place of binary64 (a finite history and level; a
tick that records a sample on finite speeds and positions), `averageVolume` after
`updateData` lies between the least and the greatest element of `volumeHistory`, and
`scrollSpeed` after a recording `draw` tick lies between the least and the greatest speed
kept in `speedBuffer`. -/
theorem average_between_extremes
    (s : Microphone.State) (level tm : ℚ) (sc : Scroll.State) (now : ℚ)
    (hhist : ∀ v ∈ s.volumeHistory, v.isFinite = true)
    (hrec : (now - sc.lastScrollTime) / 1000 > 0)
    (hbuf : ∀ e ∈ sc.speedBuffer, e.speed.isFinite = true)
    (hy : sc.scrollY.isFinite = true) (hly : sc.lastScrollY.isFinite = true) :
    (∃ (ws : List ℚ) (a : ℚ),
      (Microphone.updateData s (.fin level) tm).volumeHistory = ws.map .fin
        ∧ (Microphone.updateData s (.fin level) tm).averageVolume = .fin a
        ∧ Between a ws)
    ∧ (∃ (vs : List ℚ) (a : ℚ),
      (Scroll.draw sc now).speedBuffer.map (fun e => e.speed) = vs.map .fin
        ∧ (Scroll.draw sc now).scrollSpeed = .fin a
        ∧ Between a vs) :=
  ⟨Microphone.average_fin s level tm hhist, Scroll.speed_fin sc now hrec hbuf hy hly⟩

end ExperimentalUX

/-! ## Scroll: the speed buffer -/

namespace ExperimentalUX

namespace Scroll

theorem updateScrollState_speedBuffer (s : State) (p : JSNum) (now : ℚ) :
    (updateScrollState s p now).speedBuffer = s.speedBuffer := rfl

theorem step_speedBuffer (s : State) (ev : Event) :
    (step s ev).speedBuffer = s.speedBuffer
      ∨ ∃ now, ev = .tick now ∧ (now - s.lastScrollTime) / 1000 > 0
          ∧ (step s ev).speedBuffer
              = limitSamples (evictOld now (s.speedBuffer ++ [newEntry s now])) := by
  cases ev with
  | tick now =>
    simp only [step]
    rw [draw_speedBuffer]
    split_ifs with h
    · right; exact ⟨now, rfl, h, rfl⟩
    · left; rfl
  | touchStart now y => left; rfl
  | touchMove now touches =>
    left
    cases touches with
    | nil => rfl
    | cons y rest => rfl
  | touchEnd now => left; rfl
  | wheel now delta => left; rfl
  | key k =>
    left
    simp only [step, keyPressed]
    split_ifs <;> rfl

theorem tickTimes_append (xs ys : List Event) :
    tickTimes (xs ++ ys) = tickTimes xs ++ tickTimes ys := by
  induction xs with
  | nil => rfl
  | cons ev xs ih => cases ev <;> simp [tickTimes, ih]

theorem run_cons (s : State) (ev : Event) (evs : List Event) :
    run s (ev :: evs) = run (step s ev) evs := rfl

theorem run_snoc (s : State) (evs : List Event) (ev : Event) :
    run s (evs ++ [ev]) = step (run s evs) ev := by
  simp [run, List.foldl_append]

theorem suffix_append_right {α : Type} (a b c : List α) (h : a <:+ b) : a ++ c <:+ b ++ c := by
  obtain ⟨t, rfl⟩ := h
  exact ⟨t, by simp⟩

theorem evictOld_within (t : ℚ) (l : List SpeedEntry)
    (hs : l.Pairwise (fun a b => a.time ≤ b.time)) :
    ∀ e ∈ evictOld t l, t - e.time ≤ SPEED_WINDOW := by
  induction l with
  | nil => intro e he; simp [evictOld] at he
  | cons x rest ih =>
    intro e he
    rw [evictOld] at he
    rw [List.pairwise_cons] at hs
    split_ifs at he with hx
    · exact ih hs.2 e he
    · rcases List.mem_cons.1 he with rfl | hmem
      · exact not_lt.1 hx
      · have := hs.1 e hmem
        have := not_lt.1 hx
        linarith

theorem limitSamples_length (l : List SpeedEntry) : (limitSamples l).length ≤ SPEED_SAMPLES := by
  rw [limitSamples_eq_drop, List.length_drop]
  omega

theorem pushed_sorted (buf : List SpeedEntry) (e : SpeedEntry)
    (hs : buf.Pairwise (fun a b => a.time ≤ b.time)) (hle : ∀ x ∈ buf, x.time ≤ e.time) :
    (buf ++ [e]).Pairwise (fun a b => a.time ≤ b.time) := by
  rw [List.pairwise_append]
  refine ⟨hs, List.pairwise_singleton _ _, ?_⟩
  intro a ha b hb
  rw [List.mem_singleton] at hb
  subst hb
  exact hle a ha

theorem run_sorted (evs : List Event) : ∀ (s : State) (T : ℚ),
    s.speedBuffer.Pairwise (fun a b => a.time ≤ b.time) →
    (∀ e ∈ s.speedBuffer, ∀ t ∈ tickTimes evs, e.time ≤ t) →
    (tickTimes evs).Pairwise (· ≤ ·) →
    (∀ e ∈ s.speedBuffer, e.time ≤ T) →
    (∀ t ∈ tickTimes evs, t ≤ T) →
    (run s evs).speedBuffer.Pairwise (fun a b => a.time ≤ b.time)
      ∧ ∀ e ∈ (run s evs).speedBuffer, e.time ≤ T := by
  induction evs with
  | nil => intro s T hs _ _ hT _; exact ⟨hs, hT⟩
  | cons ev evs ih =>
    intro s T hs hfut hmono hT htick
    rw [run_cons]
    rcases step_speedBuffer s ev with hsame | ⟨now, hev, _, hbuf⟩
    · have htt : ∀ t ∈ tickTimes evs, t ∈ tickTimes (ev :: evs) := by
        intro t ht
        cases ev <;> simp [tickTimes, ht]
      have hmono2 : (tickTimes evs).Pairwise (· ≤ ·) := by
        cases ev <;> simp only [tickTimes] at hmono
        · exact (List.pairwise_cons.1 hmono).2
        all_goals exact hmono
      apply ih (step s ev) T
      · rw [hsame]; exact hs
      · rw [hsame]; intro e he t ht; exact hfut e he t (htt t ht)
      · exact hmono2
      · rw [hsame]; exact hT
      · intro t ht; exact htick t (htt t ht)
    · subst hev
      simp only [tickTimes] at hfut hmono htick
      rw [List.pairwise_cons] at hmono
      have hsorted : (s.speedBuffer ++ [newEntry s now]).Pairwise
          (fun a b => a.time ≤ b.time) :=
        pushed_sorted _ _ hs (fun x hx => hfut x hx now (List.mem_cons_self _ _))
      have hsuf : (step s (.tick now)).speedBuffer <:+ s.speedBuffer ++ [newEntry s now] := by
        rw [hbuf]
        exact (limitSamples_suffix _).trans (evictOld_suffix _ _)
      have hmem : ∀ e ∈ (step s (.tick now)).speedBuffer,
          e ∈ s.speedBuffer ∨ e.time = now := by
        intro e he
        have := hsuf.subset he
        rcases List.mem_append.1 this with h | h
        · left; exact h
        · right; rw [List.mem_singleton.1 h]; rfl
      apply ih (step s (.tick now)) T
      · exact hsorted.sublist hsuf.sublist
      · intro e he t ht
        rcases hmem e he with h | h
        · exact hfut e h t (List.mem_cons_of_mem _ ht)
        · rw [h]; exact hmono.1 t ht
      · exact hmono.2
      · intro e he
        rcases hmem e he with h | h
        · exact hT e h
        · rw [h]; exact htick now (List.mem_cons_self _ _)
      · intro t ht; exact htick t (List.mem_cons_of_mem _ ht)

theorem tick_speedBuffer (s : State) (now : ℚ) (hpos : (now - s.lastScrollTime) / 1000 > 0) :
    (step s (.tick now)).speedBuffer
      = limitSamples (evictOld now (s.speedBuffer ++ [newEntry s now])) := by
  simp only [step]
  rw [draw_speedBuffer, if_pos hpos]
  rfl

theorem run_suffix_recorded (evs : List Event) : ∀ (s : State),
    (run s evs).speedBuffer <:+ s.speedBuffer ++ recorded s evs := by
  induction evs with
  | nil => intro s; simp [run, recorded]
  | cons ev evs ih =>
    intro s
    rw [run_cons]
    have h1 := ih (step s ev)
    by_cases hrec : ∃ now, ev = .tick now ∧ (now - s.lastScrollTime) / 1000 > 0
    · obtain ⟨now, hev, hpos⟩ := hrec
      subst hev
      simp only [recorded, if_pos hpos]
      have hsuf : (step s (.tick now)).speedBuffer <:+ s.speedBuffer ++ [newEntry s now] := by
        rw [tick_speedBuffer s now hpos]
        exact (limitSamples_suffix _).trans (evictOld_suffix _ _)
      have h2 := suffix_append_right _ _ (recorded (step s (.tick now)) evs) hsuf
      have h3 := h1.trans h2
      simpa using h3
    · have hsame : (step s ev).speedBuffer = s.speedBuffer := by
        rcases step_speedBuffer s ev with h | ⟨now, hev, hpos, _⟩
        · exact h
        · exact absurd ⟨now, hev, hpos⟩ hrec
      rw [hsame] at h1
      cases ev with
      | tick now =>
        have hneg : ¬ (now - s.lastScrollTime) / 1000 > 0 := fun h => hrec ⟨now, rfl, h⟩
        simp only [recorded, if_neg hneg]
        exact h1
      | touchStart now y => exact h1
      | touchMove now touches => exact h1
      | touchEnd now => exact h1
      | wheel now delta => exact h1
      | key k => exact h1

/-- C2: in a run of the sketch from `setup` whose `draw` ticks have non-decreasing
`currentTime`, after a tick at `t` that records a sample (`deltaTime > 0`) `speedBuffer`
holds at most `SPEED_SAMPLES` entries, every entry `e` kept has
`t - e.time ≤ SPEED_WINDOW`, and the entries kept are a suffix of the entries recorded
during the run, in recording order. -/
theorem speedBuffer_bounds (t0 : ℚ) (evs : List Event) (t : ℚ)
    (hmono : (tickTimes (evs ++ [.tick t])).Pairwise (· ≤ ·))
    (hrec : (t - (run (setup t0) evs).lastScrollTime) / 1000 > 0) :
    (run (setup t0) (evs ++ [.tick t])).speedBuffer.length ≤ SPEED_SAMPLES
      ∧ (∀ e ∈ (run (setup t0) (evs ++ [.tick t])).speedBuffer, t - e.time ≤ SPEED_WINDOW)
      ∧ (run (setup t0) (evs ++ [.tick t])).speedBuffer
          <:+ recorded (setup t0) (evs ++ [.tick t]) := by
  rw [tickTimes_append, List.pairwise_append] at hmono
  obtain ⟨hm1, _, hm3⟩ := hmono
  have hle : ∀ x ∈ tickTimes evs, x ≤ t := by
    intro x hx
    exact hm3 x hx t (by simp [tickTimes])
  obtain ⟨hsorted, hbound⟩ := run_sorted evs (setup t0) t (by simp [setup])
    (by simp [setup]) hm1 (by simp [setup]) hle
  have hbuf : (run (setup t0) (evs ++ [.tick t])).speedBuffer
      = limitSamples (evictOld t ((run (setup t0) evs).speedBuffer
          ++ [newEntry (run (setup t0) evs) t])) := by
    rw [run_snoc]
    exact tick_speedBuffer _ t hrec
  refine ⟨?_, ?_, ?_⟩
  · rw [hbuf]; exact limitSamples_length _
  · intro e he
    rw [hbuf] at he
    have h1 := (limitSamples_suffix _).subset he
    exact evictOld_within t _ (pushed_sorted _ _ hsorted (fun x hx => hbound x hx)) e h1
  · have := run_suffix_recorded (evs ++ [.tick t]) (setup t0)
    simpa [setup] using this

end Scroll

end ExperimentalUX

/-! ## Microphone: loud events -/

namespace ExperimentalUX

namespace Microphone

theorem updateData_loud (s : State) (level : JSNum) (now : ℚ)
    (h : JSNum.gt (scaled level) (.fin LOUD_THRESHOLD) = true) :
    (updateData s level now).loudEventCount = s.loudEventCount + 1
      ∧ (updateData s level now).lastLoudEventTime = now
      ∧ (updateData s level now).timeSinceLoudEvent = 0 := by
  have h2 : JSNum.gt (JSNum.min (JSNum.mul level (.fin VOLUME_SCALAR)) (.fin 1))
      (.fin LOUD_THRESHOLD) = true := h
  simp [updateData, h2, RATE_WINDOW]

theorem updateData_quiet (s : State) (level : JSNum) (now : ℚ)
    (h : JSNum.gt (scaled level) (.fin LOUD_THRESHOLD) = false) :
    (updateData s level now).loudEventCount
        = (if now - s.lastLoudEventTime > RATE_WINDOW then 0 else s.loudEventCount)
      ∧ (updateData s level now).lastLoudEventTime = s.lastLoudEventTime := by
  have h2 : JSNum.gt (JSNum.min (JSNum.mul level (.fin VOLUME_SCALAR)) (.fin 1))
      (.fin LOUD_THRESHOLD) = false := h
  simp [updateData, h2]

/-- C5 (counterexample): the level 0.1 has scaled volume exactly 0.5, which is greater
than or equal to `LOUD_THRESHOLD`, yet `updateData` from the initial state at time 1000
leaves `loudEventCount` at 0 and `lastLoudEventTime` at 0. -/
theorem threshold_sample_not_counted :
    scaled (.fin (1 / 10)) = .fin (1 / 2)
      ∧ JSNum.ge (scaled (.fin (1 / 10))) (.fin LOUD_THRESHOLD) = true
      ∧ init.loudEventCount = 0
      ∧ (updateData init (.fin (1 / 10)) 1000).loudEventCount = 0
      ∧ (updateData init (.fin (1 / 10)) 1000).lastLoudEventTime = 0 := by
  have hs : scaled (.fin (1 / 10)) = .fin (1 / 2) := by
    rw [scaled_fin]; norm_num [VOLUME_SCALAR]
  have hq : JSNum.gt (scaled (.fin (1 / 10))) (.fin LOUD_THRESHOLD) = false := by
    rw [hs]; simp [JSNum.gt, JSNum.lt, LOUD_THRESHOLD]
  obtain ⟨h1, h2⟩ := updateData_quiet init (.fin (1 / 10)) 1000 hq
  refine ⟨hs, ?_, rfl, ?_, ?_⟩
  · rw [hs]; simp [JSNum.ge, JSNum.lt, LOUD_THRESHOLD]
  · rw [h1]; norm_num [init, RATE_WINDOW]
  · rw [h2]; rfl

/-- C5 (amended): a sample whose scaled volume is strictly greater than `LOUD_THRESHOLD`
increments `loudEventCount` and sets `lastLoudEventTime` to the current time; a sample
whose scaled volume equals `LOUD_THRESHOLD` is not counted and leaves `lastLoudEventTime`
as it was. -/
theorem loud_event_above_threshold (s : State) (level : JSNum) (now : ℚ) :
    (JSNum.gt (scaled level) (.fin LOUD_THRESHOLD) = true →
        (updateData s level now).loudEventCount = s.loudEventCount + 1
          ∧ (updateData s level now).lastLoudEventTime = now)
      ∧ (scaled level = .fin LOUD_THRESHOLD →
        (updateData s level now).loudEventCount ≠ s.loudEventCount + 1
          ∧ (updateData s level now).lastLoudEventTime = s.lastLoudEventTime) := by
  constructor
  · intro h
    exact ⟨(updateData_loud s level now h).1, (updateData_loud s level now h).2.1⟩
  · intro h
    have hq : JSNum.gt (scaled level) (.fin LOUD_THRESHOLD) = false := by
      rw [h]; simp [JSNum.gt, JSNum.lt]
    obtain ⟨h1, h2⟩ := updateData_quiet s level now hq
    refine ⟨?_, h2⟩
    rw [h1]
    split_ifs <;> omega

theorem updateData_eq_reads (s : State) (level : JSNum) (now : ℚ) :
    updateData s level now = updateDataReads s level now now now := rfl

theorem updateDataReads_loud (s : State) (level : JSNum) (t1 t2 t3 : ℚ)
    (h : JSNum.gt (scaled level) (.fin LOUD_THRESHOLD) = true) :
    (updateDataReads s level t1 t2 t3).lastLoudEventTime = t1
      ∧ (updateDataReads s level t1 t2 t3).timeSinceLoudEvent = (t2 - t1) / 1000
      ∧ (updateDataReads s level t1 t2 t3).loudEventCount
          = (if t3 - t1 > RATE_WINDOW then 0 else s.loudEventCount + 1) := by
  have h2 : JSNum.gt (JSNum.min (JSNum.mul level (.fin VOLUME_SCALAR)) (.fin 1))
      (.fin LOUD_THRESHOLD) = true := h
  simp [updateDataReads, h2]

/-- C6 (counterexample): from the initial state, a sample of scaled value 0.8 whose clock
reads are 1000 at `lastLoudEventTime = millis()` and 1000.1 at the next two reads leaves
`timeSinceLoudEvent = 0.0001`, not 0. -/
theorem loud_sample_time_not_zero :
    scaled (.fin (4 / 25)) = .fin (4 / 5)
      ∧ JSNum.gt (scaled (.fin (4 / 25))) (.fin LOUD_THRESHOLD) = true
      ∧ (updateDataReads init (.fin (4 / 25)) 1000 (10001 / 10) (10001 / 10)).lastLoudEventTime
          = 1000
      ∧ (updateDataReads init (.fin (4 / 25)) 1000 (10001 / 10) (10001 / 10)).timeSinceLoudEvent
          = 1 / 10000
      ∧ (updateDataReads init (.fin (4 / 25)) 1000 (10001 / 10) (10001 / 10)).timeSinceLoudEvent
          ≠ 0 := by
  have hs : scaled (.fin (4 / 25)) = .fin (4 / 5) := by
    rw [scaled_fin]; norm_num [VOLUME_SCALAR]
  have hl : JSNum.gt (scaled (.fin (4 / 25))) (.fin LOUD_THRESHOLD) = true := by
    rw [hs]; norm_num [JSNum.gt, JSNum.lt, LOUD_THRESHOLD]
  obtain ⟨h1, h2, _⟩ := updateDataReads_loud init (.fin (4 / 25)) 1000 (10001 / 10) (10001 / 10) hl
  refine ⟨hs, hl, h1, ?_, ?_⟩
  · rw [h2]; norm_num
  · rw [h2]; norm_num

/-- C6 (amended): when the scaled volume exceeds `LOUD_THRESHOLD`, an `updateData` call
whose clock reads are `t1`, `t2`, `t3` sets `lastLoudEventTime = t1` and
`timeSinceLoudEvent = (t2 - t1) / 1000`, which is 0 exactly when `t2 = t1`, and leaves
`loudEventCount` one greater than before when `t3 - t1 ≤ RATE_WINDOW` (it is reset to 0
otherwise); when the three reads coincide at `t` the count is one greater,
`lastLoudEventTime = t` and `timeSinceLoudEvent = 0`; from the initial state the level
0.16 (scaled 0.8) with all reads 1000 gives `loudEventCount = 1` and
`timeSinceLoudEvent = 0`. -/
theorem one_loud_sample_reads (s : State) (level : JSNum) (t1 t2 t3 : ℚ)
    (h : JSNum.gt (scaled level) (.fin LOUD_THRESHOLD) = true) :
    (updateDataReads s level t1 t2 t3).lastLoudEventTime = t1
      ∧ (updateDataReads s level t1 t2 t3).timeSinceLoudEvent = (t2 - t1) / 1000
      ∧ ((updateDataReads s level t1 t2 t3).timeSinceLoudEvent = 0 ↔ t2 = t1)
      ∧ (t3 - t1 ≤ RATE_WINDOW →
          (updateDataReads s level t1 t2 t3).loudEventCount = s.loudEventCount + 1)
      ∧ (t3 - t1 > RATE_WINDOW → (updateDataReads s level t1 t2 t3).loudEventCount = 0)
      ∧ ((updateDataReads s level t1 t1 t1).loudEventCount = s.loudEventCount + 1
          ∧ (updateDataReads s level t1 t1 t1).lastLoudEventTime = t1
          ∧ (updateDataReads s level t1 t1 t1).timeSinceLoudEvent = 0)
      ∧ (scaled (.fin (4 / 25)) = .fin (4 / 5)
          ∧ (updateDataReads init (.fin (4 / 25)) 1000 1000 1000).loudEventCount = 1
          ∧ (updateDataReads init (.fin (4 / 25)) 1000 1000 1000).timeSinceLoudEvent = 0) := by
  obtain ⟨h1, h2, h3⟩ := updateDataReads_loud s level t1 t2 t3 h
  have hs : scaled (.fin (4 / 25)) = .fin (4 / 5) := by
    rw [scaled_fin]; norm_num [VOLUME_SCALAR]
  have hl : JSNum.gt (scaled (.fin (4 / 25))) (.fin LOUD_THRESHOLD) = true := by
    rw [hs]; norm_num [JSNum.gt, JSNum.lt, LOUD_THRESHOLD]
  refine ⟨h1, h2, ?_, ?_, ?_, ?_, hs, ?_, ?_⟩
  · rw [h2]
    constructor
    · intro h0
      have : t2 - t1 = 0 := by
        rcases div_eq_zero_iff.1 h0 with h | h
        · exact h
        · norm_num at h
      linarith
    · intro h0; rw [h0]; norm_num
  · intro hle; rw [h3, if_neg (not_lt.2 hle)]
  · intro hgt; rw [h3, if_pos hgt]
  · obtain ⟨a1, a2, a3⟩ := updateDataReads_loud s level t1 t1 t1 h
    refine ⟨?_, a1, ?_⟩
    · rw [a3]; norm_num [RATE_WINDOW]
    · rw [a2]; norm_num
  · rw [(updateDataReads_loud init (.fin (4 / 25)) 1000 1000 1000 hl).2.2]
    norm_num [RATE_WINDOW, init]
  · rw [(updateDataReads_loud init (.fin (4 / 25)) 1000 1000 1000 hl).2.1]
    norm_num

/-- C7: for a sample that is not loud, `updateData` at `now` sets `loudEventCount` to 0
when `now - lastLoudEventTime > RATE_WINDOW` and leaves it unchanged when
`now - lastLoudEventTime ≤ RATE_WINDOW`; a loud sample at 0 followed by a quiet one at
6000 leaves the count at 0. -/
theorem quiet_reset_policy (s : State) (level : JSNum) (now : ℚ)
    (hq : JSNum.gt (scaled level) (.fin LOUD_THRESHOLD) = false) :
    (now - s.lastLoudEventTime > RATE_WINDOW → (updateData s level now).loudEventCount = 0)
      ∧ (now - s.lastLoudEventTime ≤ RATE_WINDOW →
          (updateData s level now).loudEventCount = s.loudEventCount)
      ∧ ((runUpdates init [(.fin 1, 0)]).loudEventCount = 1
          ∧ (runUpdates init [(.fin 1, 0)]).lastLoudEventTime = 0
          ∧ (runUpdates init [(.fin 1, 0), (.fin 0, 6000)]).loudEventCount = 0) := by
  obtain ⟨h1, _⟩ := updateData_quiet s level now hq
  refine ⟨?_, ?_, ?_⟩
  · intro h; rw [h1, if_pos h]
  · intro h; rw [h1, if_neg (not_lt.2 h)]
  · have hl : JSNum.gt (scaled (.fin 1)) (.fin LOUD_THRESHOLD) = true := by
      rw [scaled_fin]; norm_num [VOLUME_SCALAR, JSNum.gt, JSNum.lt, LOUD_THRESHOLD]
    have hz : JSNum.gt (scaled (.fin 0)) (.fin LOUD_THRESHOLD) = false := by
      rw [scaled_fin]; norm_num [VOLUME_SCALAR, JSNum.gt, JSNum.lt, LOUD_THRESHOLD]
    obtain ⟨a1, a2, _⟩ := updateData_loud init (.fin 1) 0 hl
    obtain ⟨b1, _⟩ := updateData_quiet (updateData init (.fin 1) 0) (.fin 0) 6000 hz
    refine ⟨?_, ?_, ?_⟩
    · simp only [runUpdates, List.foldl_cons, List.foldl_nil]; rw [a1]; rfl
    · simp only [runUpdates, List.foldl_cons, List.foldl_nil]; rw [a2]
    · simp only [runUpdates, List.foldl_cons, List.foldl_nil]
      rw [b1, a2]; norm_num [RATE_WINDOW]

/-- C8: the `loudEventRate` published by `updateData` is the loud-event count, after the
current sample has been counted, divided by the constant `RATE_WINDOW / 1000 = 5`; two
states with the same count get the same rate, whatever their histories and times. -/
theorem rate_fixed_divisor (s : State) (level : JSNum) (now : ℚ) :
    (updateData s level now).loudEventRate
        = ((if JSNum.gt (scaled level) (.fin LOUD_THRESHOLD) = true
              then s.loudEventCount + 1 else s.loudEventCount : Nat) : ℚ) / 5
      ∧ RATE_WINDOW / 1000 = 5
      ∧ (∀ (s2 : State) (now2 : ℚ), s2.loudEventCount = s.loudEventCount →
          (updateData s2 level now2).loudEventRate = (updateData s level now).loudEventRate) := by
  have hr : RATE_WINDOW / 1000 = 5 := by norm_num [RATE_WINDOW]
  have hrate : ∀ (s1 : State) (n1 : ℚ), (updateData s1 level n1).loudEventRate
      = ((if JSNum.gt (scaled level) (.fin LOUD_THRESHOLD) = true
              then s1.loudEventCount + 1 else s1.loudEventCount : Nat) : ℚ) / 5 := by
    intro s1 n1
    rw [← hr]
    rfl
  refine ⟨hrate s now, hr, ?_⟩
  intro s2 now2 h
  rw [hrate, hrate, h]

end Microphone

end ExperimentalUX

/-! ## Microphone: the approximate count, and `NaN` levels -/

namespace ExperimentalUX

namespace JSNum

theorem foldl_add_nan (l : List JSNum) : l.foldl add nan = nan := by
  induction l with
  | nil => rfl
  | cons x l ih => simpa [List.foldl_cons, add] using ih

theorem foldl_add_of_mem_nan (l : List JSNum) (acc : JSNum) (h : nan ∈ l) :
    l.foldl add acc = nan := by
  induction l generalizing acc with
  | nil => simp at h
  | cons x l ih =>
    rw [List.foldl_cons]
    rcases List.mem_cons.1 h with hx | hx
    · rw [← hx]
      have : add acc nan = nan := by cases acc <;> rfl
      rw [this]; exact foldl_add_nan l
    · exact ih _ hx

end JSNum

namespace Microphone

theorem runUpdates_all_loud (inputs : List (JSNum × ℚ)) (s : State)
    (h : ∀ i ∈ inputs, isLoud i = true) :
    (runUpdates s inputs).loudEventCount = s.loudEventCount + inputs.length := by
  induction inputs using List.reverseRecOn with
  | nil => simp [runUpdates]
  | append_singleton xs x ih =>
    rw [runUpdates_snoc]
    have hx : JSNum.gt (scaled x.1) (.fin LOUD_THRESHOLD) = true :=
      h x (by simp)
    rw [(updateData_loud _ x.1 x.2 hx).1, ih (fun i hi => h i (by simp [hi]))]
    simp only [List.length_append, List.length_singleton]
    omega

/-- C9: there is a sequence of `updateData` calls with non-decreasing times after which
`loudEventCount` is strictly greater than the number of loud samples of the trailing
`RATE_WINDOW` milliseconds; and when every sample is loud the count is the number of
samples, however long the run lasts. -/
theorem loud_count_is_not_sliding :
    (∃ (inputs : List (JSNum × ℚ)) (level : JSNum) (now : ℚ),
        ((inputs ++ [(level, now)]).map Prod.snd).Pairwise (· ≤ ·)
          ∧ loudWithin (inputs ++ [(level, now)]) now
              < (runUpdates init (inputs ++ [(level, now)])).loudEventCount)
      ∧ (∀ inputs : List (JSNum × ℚ), (∀ i ∈ inputs, isLoud i = true) →
          (runUpdates init inputs).loudEventCount = inputs.length) := by
  have hall : ∀ inputs : List (JSNum × ℚ), (∀ i ∈ inputs, isLoud i = true) →
      (runUpdates init inputs).loudEventCount = inputs.length := by
    intro inputs h
    rw [runUpdates_all_loud inputs init h]
    simp [init]
  refine ⟨⟨[(.fin 1, 0), (.fin 1, 3000)], .fin 1, 6000, ?_, ?_⟩, hall⟩
  · norm_num
  · have hl : isLoud (JSNum.fin 1, (0 : ℚ)) = true := by
      simp only [isLoud]
      rw [scaled_fin]; norm_num [VOLUME_SCALAR, JSNum.gt, JSNum.lt, LOUD_THRESHOLD]
    have hl2 : ∀ t : ℚ, isLoud (JSNum.fin 1, t) = true := fun t => hl
    rw [hall _ (by
      intro i hi
      simp only [List.cons_append, List.nil_append, List.mem_cons, List.mem_singleton,
        List.not_mem_nil, or_false] at hi
      rcases hi with rfl | rfl | rfl <;> exact hl2 _)]
    simp only [loudWithin, List.cons_append, List.nil_append, List.filter_cons, hl2,
      Bool.true_and]
    norm_num [RATE_WINDOW]

theorem scaled_nan : scaled .nan = .nan := rfl

/-- C10 (counterexample): from the initial state an `updateData` call with level `NaN`
takes the number of samples from 0 to 1, `peakVolume` from 0 to `NaN` and `averageVolume`
from 0 to `NaN`. -/
theorem nan_sample_changes_state :
    init.volumeHistory.length = 0
      ∧ (updateData init .nan 0).volumeHistory.length = 1
      ∧ init.peakVolume = .fin 0
      ∧ (updateData init .nan 0).peakVolume = .nan
      ∧ init.averageVolume = .fin 0
      ∧ (updateData init .nan 0).averageVolume = .nan := by
  refine ⟨rfl, ?_, rfl, rfl, rfl, ?_⟩
  · simp [updateData_history, pushHistory_eq, init, HISTORY_LENGTH]
  · rw [updateData_average, updateData_history]
    simp [pushHistory_eq, init, HISTORY_LENGTH, scaled_nan, sumHistory, JSNum.add, JSNum.div]

/-- C10 (amended): a `NaN` level is recorded like any other sample: `NaN` becomes the
newest entry of `volumeHistory`, whose length grows by one unless the push made it exceed
`HISTORY_LENGTH` (then it is the length before the call), and `peakVolume` and
`averageVolume` both become `NaN`. -/
theorem nan_sample_is_recorded (s : State) (now : ℚ) :
    (updateData s .nan now).volumeHistory = pushHistory HISTORY_LENGTH s.volumeHistory .nan
      ∧ (updateData s .nan now).volumeHistory.getLast? = some .nan
      ∧ (updateData s .nan now).volumeHistory.length
          = (if s.volumeHistory.length + 1 > HISTORY_LENGTH then s.volumeHistory.length
             else s.volumeHistory.length + 1)
      ∧ (updateData s .nan now).peakVolume = .nan
      ∧ (updateData s .nan now).averageVolume = .nan := by
  have hh : (updateData s .nan now).volumeHistory
      = pushHistory HISTORY_LENGTH s.volumeHistory .nan := rfl
  have hlast : (pushHistory HISTORY_LENGTH s.volumeHistory .nan).getLast? = some .nan := by
    rw [pushHistory_eq]
    split_ifs with hc
    · have hle : 1 ≤ s.volumeHistory.length := by
        simp only [HISTORY_LENGTH] at hc; omega
      rw [List.drop_append_of_le_length hle]
      simp
    · simp
  refine ⟨hh, by rw [hh]; exact hlast, ?_, ?_, ?_⟩
  · rw [hh, pushHistory_eq]
    split_ifs <;> simp
  · rw [updateData_peak, scaled_nan]
    cases s.peakVolume <;> rfl
  · rw [updateData_average, hh]
    have hmem : JSNum.nan ∈ pushHistory HISTORY_LENGTH s.volumeHistory .nan :=
      List.mem_of_getLast?_eq_some hlast
    rw [sumHistory, JSNum.foldl_add_of_mem_nan _ _ hmem]
    rfl

end Microphone

end ExperimentalUX

/-! ## Instances at concrete inputs -/

namespace ExperimentalUX

namespace Microphone

theorem peak_is_running_maximum_witness :
    JSNum.fin 0 ∈ JSNum.fin 0 :: [(JSNum.fin (1 / 10), (0 : ℚ))].map (fun i => scaled i.1)
      ∧ JSNum.lt (runUpdates init [(.fin (1 / 10), 0)]).peakVolume (.fin 0) = false :=
  ⟨by simp, (peak_is_running_maximum [(.fin (1 / 10), 0)]).2.2.1 (.fin 0) (by simp)⟩

theorem loud_event_above_threshold_witness :
    JSNum.gt (scaled (.fin 1)) (.fin LOUD_THRESHOLD) = true
      ∧ (updateData init (.fin 1) 1000).loudEventCount = init.loudEventCount + 1
      ∧ (updateData init (.fin 1) 1000).lastLoudEventTime = 1000 := by
  have h : JSNum.gt (scaled (.fin 1)) (.fin LOUD_THRESHOLD) = true := by
    norm_num [scaled, JSNum.mul, JSNum.min, JSNum.gt, JSNum.lt, VOLUME_SCALAR, LOUD_THRESHOLD]
  exact ⟨h, (loud_event_above_threshold init (.fin 1) 1000).1 h⟩

theorem one_loud_sample_reads_witness :
    JSNum.gt (scaled (.fin 1)) (.fin LOUD_THRESHOLD) = true
      ∧ (2503 / 10 : ℚ) - 250 ≤ RATE_WINDOW
      ∧ (updateDataReads init (.fin 1) 250 (2502 / 10) (2503 / 10)).lastLoudEventTime = 250
      ∧ (updateDataReads init (.fin 1) 250 (2502 / 10) (2503 / 10)).timeSinceLoudEvent
          = (2502 / 10 - 250) / 1000
      ∧ (updateDataReads init (.fin 1) 250 (2502 / 10) (2503 / 10)).loudEventCount
          = init.loudEventCount + 1 := by
  have h : JSNum.gt (scaled (.fin 1)) (.fin LOUD_THRESHOLD) = true := by
    norm_num [scaled, JSNum.mul, JSNum.min, JSNum.gt, JSNum.lt, VOLUME_SCALAR, LOUD_THRESHOLD]
  have ht : (2503 / 10 : ℚ) - 250 ≤ RATE_WINDOW := by norm_num [RATE_WINDOW]
  have hthm := one_loud_sample_reads init (.fin 1) 250 (2502 / 10) (2503 / 10) h
  exact ⟨h, ht, hthm.1, hthm.2.1, hthm.2.2.2.1 ht⟩

theorem quiet_reset_policy_witness :
    JSNum.gt (scaled (.fin 0)) (.fin LOUD_THRESHOLD) = false
      ∧ 6000 - (updateData init (.fin 1) 0).lastLoudEventTime > RATE_WINDOW
      ∧ (updateData (updateData init (.fin 1) 0) (.fin 0) 6000).loudEventCount = 0 := by
  have hq : JSNum.gt (scaled (.fin 0)) (.fin LOUD_THRESHOLD) = false := by
    norm_num [scaled, JSNum.mul, JSNum.min, JSNum.gt, JSNum.lt, VOLUME_SCALAR, LOUD_THRESHOLD]
  have ht : 6000 - (updateData init (.fin 1) 0).lastLoudEventTime > RATE_WINDOW := by
    norm_num [updateData, init, JSNum.mul, JSNum.min, JSNum.gt, JSNum.lt, VOLUME_SCALAR,
      LOUD_THRESHOLD, RATE_WINDOW]
  exact ⟨hq, ht, (quiet_reset_policy (updateData init (.fin 1) 0) (.fin 0) 6000 hq).1 ht⟩

theorem rate_fixed_divisor_witness :
    init.loudEventCount = init.loudEventCount
      ∧ (updateData init (.fin 1) 7).loudEventRate = (updateData init (.fin 1) 0).loudEventRate :=
  ⟨rfl, (rate_fixed_divisor init (.fin 1) 0).2.2 init 7 rfl⟩

theorem loud_count_is_not_sliding_witness :
    (∀ i ∈ [(JSNum.fin 1, (0 : ℚ)), (JSNum.fin 1, (9000 : ℚ))], isLoud i = true)
      ∧ (runUpdates init [(.fin 1, 0), (.fin 1, 9000)]).loudEventCount
          = [(JSNum.fin 1, (0 : ℚ)), (JSNum.fin 1, (9000 : ℚ))].length := by
  have h : ∀ i ∈ [(JSNum.fin 1, (0 : ℚ)), (JSNum.fin 1, (9000 : ℚ))], isLoud i = true := by
    intro i hi
    simp only [List.mem_cons, List.mem_singleton, List.not_mem_nil, or_false] at hi
    rcases hi with rfl | rfl <;>
      norm_num [isLoud, scaled, JSNum.mul, JSNum.min, JSNum.gt, JSNum.lt, VOLUME_SCALAR,
        LOUD_THRESHOLD]
  exact ⟨h, loud_count_is_not_sliding.2 _ h⟩

end Microphone

namespace Scroll

theorem speedBuffer_bounds_witness :
    (tickTimes ([.tick 16, .wheel 20 1] ++ [.tick 400])).Pairwise (· ≤ ·)
      ∧ (400 - (run (setup 5) [.tick 16, .wheel 20 1]).lastScrollTime) / 1000 > 0
      ∧ (run (setup 5) ([.tick 16, .wheel 20 1] ++ [.tick 400])).speedBuffer.length
          ≤ SPEED_SAMPLES
      ∧ (∀ e ∈ (run (setup 5) ([.tick 16, .wheel 20 1] ++ [.tick 400])).speedBuffer,
          400 - e.time ≤ SPEED_WINDOW)
      ∧ (run (setup 5) ([.tick 16, .wheel 20 1] ++ [.tick 400])).speedBuffer
          <:+ recorded (setup 5) ([.tick 16, .wheel 20 1] ++ [.tick 400]) := by
  have h1 : (tickTimes ([.tick 16, .wheel 20 1] ++ [.tick 400])).Pairwise (· ≤ ·) := by
    norm_num [tickTimes]
  have h2 : (400 - (run (setup 5) [.tick 16, .wheel 20 1]).lastScrollTime) / 1000 > 0 := by
    norm_num [run, step, setup, draw, recordSpeed, mouseWheel, updateScrollState,
      applyMomentum, JSNum.strictEq]
  exact ⟨h1, h2, speedBuffer_bounds 5 [.tick 16, .wheel 20 1] 400 h1 h2⟩

end Scroll

theorem average_between_extremes_witness :
    (∀ v ∈ Microphone.init.volumeHistory, v.isFinite = true)
      ∧ (16 - (Scroll.setup 0).lastScrollTime) / 1000 > 0
      ∧ (∃ (ws : List ℚ) (a : ℚ),
          (Microphone.updateData Microphone.init (.fin (1 / 10)) 0).volumeHistory
              = ws.map .fin
            ∧ (Microphone.updateData Microphone.init (.fin (1 / 10)) 0).averageVolume = .fin a
            ∧ Between a ws)
      ∧ (∃ (vs : List ℚ) (a : ℚ),
          (Scroll.draw (Scroll.setup 0) 16).speedBuffer.map (fun e => e.speed) = vs.map .fin
            ∧ (Scroll.draw (Scroll.setup 0) 16).scrollSpeed = .fin a
            ∧ Between a vs) := by
  have h1 : ∀ v ∈ Microphone.init.volumeHistory, v.isFinite = true := by
    simp [Microphone.init]
  have h2 : (16 - (Scroll.setup 0).lastScrollTime) / 1000 > 0 := by
    norm_num [Scroll.setup]
  exact ⟨h1, h2, average_between_extremes Microphone.init (1 / 10) 0 (Scroll.setup 0) 16 h1 h2
    (by simp [Scroll.setup]) rfl rfl⟩

end ExperimentalUX

/-! ## No average divides by zero; the scaled volume stays between 0 and 1 -/

namespace ExperimentalUX

theorem suffix_getLast? {α : Type} (a b : List α) (h : a <:+ b) (hne : a ≠ []) :
    a.getLast? = b.getLast? := by
  obtain ⟨t, rfl⟩ := h
  exact (List.getLast?_append_of_ne_nil t hne).symm

namespace Microphone

theorem pushHistory_getLast? (hist : List JSNum) (v : JSNum) :
    (pushHistory HISTORY_LENGTH hist v).getLast? = some v := by
  have hsuf : pushHistory HISTORY_LENGTH hist v <:+ hist ++ [v] := by
    rw [pushHistory_eq]
    split_ifs
    · exact List.drop_suffix _ _
    · exact List.suffix_refl _
  rw [suffix_getLast? _ _ hsuf (pushHistory_ne_nil hist v), List.getLast?_concat]

end Microphone

namespace Scroll

theorem recordSpeed_getLast? (s : State) (now : ℚ) :
    (recordSpeed s now).speedBuffer.getLast? = some (newEntry s now) := by
  have hsuf : (recordSpeed s now).speedBuffer <:+ s.speedBuffer ++ [newEntry s now] := by
    rw [recordSpeed_buffer]
    exact (limitSamples_suffix _).trans (evictOld_suffix _ _)
  rw [suffix_getLast? _ _ hsuf (recordSpeed_buffer_ne_nil s now), List.getLast?_concat]

end Scroll

/-- C11: in `updateData` the divisor `volumeHistory.length` is at least 1 when
`averageVolume` is computed; in `draw` the entry just pushed is still the newest entry
after both eviction loops (`SPEED_WINDOW ≥ 0`, `SPEED_SAMPLES ≥ 1`), so `speedBuffer` is
non-empty when the average is taken: the test `speedBuffer.length > 0` holds and
`scrollSpeed` is the quotient, never the `scrollSpeed = 0` branch. -/
theorem averages_never_divide_by_zero :
    (∀ (s : Microphone.State) (level : JSNum) (now : ℚ),
        1 ≤ (Microphone.updateData s level now).volumeHistory.length
          ∧ (Microphone.updateData s level now).averageVolume
              = JSNum.div (Microphone.sumHistory (Microphone.updateData s level now).volumeHistory)
                  (.fin ((Microphone.updateData s level now).volumeHistory.length : ℚ)))
      ∧ (0 ≤ Scroll.SPEED_WINDOW ∧ 1 ≤ Scroll.SPEED_SAMPLES)
      ∧ (∀ (sc : Scroll.State) (now : ℚ),
          (Scroll.limitSamples (Scroll.evictOld now
              (sc.speedBuffer ++ [Scroll.newEntry sc now]))).getLast?
              = some (Scroll.newEntry sc now)
            ∧ 0 < (Scroll.limitSamples (Scroll.evictOld now
                (sc.speedBuffer ++ [Scroll.newEntry sc now]))).length
            ∧ (Scroll.recordSpeed sc now).scrollSpeed
                = JSNum.div (Scroll.sumSpeeds (Scroll.recordSpeed sc now).speedBuffer)
                    (.fin ((Scroll.recordSpeed sc now).speedBuffer.length : ℚ)))
      ∧ (∀ (sc : Scroll.State) (now : ℚ), (now - sc.lastScrollTime) / 1000 > 0 →
          (Scroll.draw sc now).speedBuffer.getLast? = some (Scroll.newEntry sc now)
            ∧ 1 ≤ (Scroll.draw sc now).speedBuffer.length
            ∧ (Scroll.draw sc now).scrollSpeed
                = JSNum.div (Scroll.sumSpeeds (Scroll.draw sc now).speedBuffer)
                    (.fin ((Scroll.draw sc now).speedBuffer.length : ℚ))) := by
  refine ⟨?_, ⟨by norm_num [Scroll.SPEED_WINDOW], by norm_num [Scroll.SPEED_SAMPLES]⟩, ?_, ?_⟩
  · intro s level now
    refine ⟨?_, rfl⟩
    rw [Microphone.updateData_history]
    exact List.length_pos.2 (Microphone.pushHistory_ne_nil _ _)
  · intro sc now
    refine ⟨Scroll.recordSpeed_getLast? sc now, ?_, Scroll.recordSpeed_scrollSpeed sc now⟩
    exact List.length_pos.2 (Scroll.recordSpeed_buffer_ne_nil sc now)
  · intro sc now hrec
    rw [Scroll.draw_speedBuffer, Scroll.draw_scrollSpeed, if_pos hrec, if_pos hrec]
    refine ⟨Scroll.recordSpeed_getLast? sc now, ?_, Scroll.recordSpeed_scrollSpeed sc now⟩
    exact List.length_pos.2 (Scroll.recordSpeed_buffer_ne_nil sc now)

theorem averages_never_divide_by_zero_witness :
    (16 - (Scroll.setup 0).lastScrollTime) / 1000 > 0
      ∧ 1 ≤ (Scroll.draw (Scroll.setup 0) 16).speedBuffer.length := by
  have h : (16 - (Scroll.setup 0).lastScrollTime) / 1000 > 0 := by norm_num [Scroll.setup]
  exact ⟨h, (averages_never_divide_by_zero.2.2.2 (Scroll.setup 0) 16 h).2.1⟩

end ExperimentalUX

namespace ExperimentalUX

namespace Microphone

theorem inUnit_isFinite (x : JSNum) (h : InUnit x) : x.isFinite = true := by
  obtain ⟨q, rfl, _⟩ := h
  rfl

theorem scaled_inUnit (level : JSNum) (h : JSNum.ge level (.fin 0) = true) :
    InUnit (scaled level) := by
  cases level with
  | fin q =>
    have hq : 0 ≤ q := by
      simpa [JSNum.ge, JSNum.lt] using h
    rw [scaled_fin]
    refine ⟨_, rfl, ?_, min_le_right _ _⟩
    exact le_min (by simp only [VOLUME_SCALAR]; linarith) (by norm_num)
  | posInf =>
    refine ⟨1, ?_, by norm_num, le_refl _⟩
    simp [scaled, JSNum.mul, JSNum.infOfSign, VOLUME_SCALAR, JSNum.min, JSNum.lt]
  | negInf => simp [JSNum.ge, JSNum.lt] at h
  | nan => simp [JSNum.ge] at h

theorem max_inUnit (a b : JSNum) (ha : InUnit a) (hb : InUnit b) : InUnit (JSNum.max a b) := by
  rcases JSNum.max_eq_or a b with h | h
  · rw [h]; exact ha
  · rw [h]; exact hb

theorem average_inUnit (s : State) (level : JSNum) (now : ℚ)
    (hall : ∀ w ∈ (updateData s level now).volumeHistory, InUnit w) :
    InUnit (updateData s level now).averageVolume := by
  obtain ⟨ws, hws⟩ := JSNum.exists_map_fin _ (fun w hw => inUnit_isFinite w (hall w hw))
  have hne : ws ≠ [] := by
    intro h
    rw [h, updateData_history] at hws
    exact pushHistory_ne_nil _ _ hws
  have havg : (updateData s level now).averageVolume = .fin (ws.sum / ws.length) := by
    rw [updateData_average, hws, sumHistory_fin, List.length_map]
    exact JSNum.div_fin_length _ _ (by simpa using hne)
  obtain ⟨lo, hlo, hi, hhi, _, h1, h2⟩ := between_mean ws hne
  have hin : ∀ q ∈ ws, 0 ≤ q ∧ q ≤ 1 := by
    intro q hq
    have hmem : JSNum.fin q ∈ (updateData s level now).volumeHistory := by
      rw [hws]; exact List.mem_map_of_mem _ hq
    obtain ⟨q2, hq2, h0, h1⟩ := hall _ hmem
    cases hq2
    exact ⟨h0, h1⟩
  exact ⟨_, havg, le_trans (hin lo hlo).1 h1, le_trans h2 (hin hi hhi).2⟩

/-- C12: after any sequence of `updateData` calls from the initial state whose raw levels
are non-negative (`level >= 0`), every scaled sample `min(level * VOLUME_SCALAR, 1)` is a
finite value in `[0, 1]`, and so are `scaledVolume`, every element of `volumeHistory`,
`peakVolume` and `averageVolume`. -/
theorem scaled_volume_in_unit_interval (inputs : List (JSNum × ℚ))
    (h : ∀ i ∈ inputs, JSNum.ge i.1 (.fin 0) = true) :
    (∀ i ∈ inputs, InUnit (scaled i.1))
      ∧ InUnit (runUpdates init inputs).scaledVolume
      ∧ (∀ v ∈ (runUpdates init inputs).volumeHistory, InUnit v)
      ∧ InUnit (runUpdates init inputs).peakVolume
      ∧ InUnit (runUpdates init inputs).averageVolume := by
  refine ⟨fun i hi => scaled_inUnit i.1 (h i hi), ?_⟩
  induction inputs using List.reverseRecOn with
  | nil =>
    have h0 : InUnit (.fin 0) := ⟨0, rfl, le_refl _, by norm_num⟩
    refine ⟨h0, ?_, h0, h0⟩
    intro v hv
    simp [runUpdates, init] at hv
  | append_singleton xs x ih =>
    obtain ⟨_, ih2, ih3, _⟩ := ih (fun i hi => h i (by simp [hi]))
    have hx : InUnit (scaled x.1) := scaled_inUnit x.1 (h x (by simp))
    rw [runUpdates_snoc]
    have hall : ∀ w ∈ (updateData (runUpdates init xs) x.1 x.2).volumeHistory, InUnit w := by
      intro w hw
      rw [updateData_history] at hw
      rcases pushHistory_mem _ _ _ _ hw with hm | hm
      · exact ih2 w hm
      · rw [hm]; exact hx
    refine ⟨hx, hall, ?_, average_inUnit _ _ _ hall⟩
    rw [updateData_peak]
    exact max_inUnit _ _ ih3 hx

theorem scaled_volume_in_unit_interval_witness :
    (∀ i ∈ [(JSNum.fin (1 / 10), (0 : ℚ)), (JSNum.fin 3, (16 : ℚ))],
        JSNum.ge i.1 (.fin 0) = true)
      ∧ InUnit (runUpdates init [(.fin (1 / 10), 0), (.fin 3, 16)]).averageVolume := by
  have h : ∀ i ∈ [(JSNum.fin (1 / 10), (0 : ℚ)), (JSNum.fin 3, (16 : ℚ))],
      JSNum.ge i.1 (.fin 0) = true := by
    intro i hi
    simp only [List.mem_cons, List.mem_singleton, List.not_mem_nil, or_false] at hi
    rcases hi with rfl | rfl <;> norm_num [JSNum.ge, JSNum.lt]
  exact ⟨h, (scaled_volume_in_unit_interval _ h).2.2.2.2⟩

end Microphone

end ExperimentalUX

/-! ## Single_Touch: interactions per second and the toggle -/

namespace ExperimentalUX

namespace SingleTouch

theorem interact_snoc (s : State) (calls : List (ℚ × ℚ × ℚ)) (c : ℚ × ℚ × ℚ) :
    interact s (calls ++ [c]) = handleInteraction (interact s calls) c.1 c.2.1 c.2.2 := by
  simp [interact, List.foldl_append]

theorem interact_times (s : State) (calls : List (ℚ × ℚ × ℚ)) :
    (interact s calls).interactionTimes
      = s.interactionTimes ++ calls.map (fun c => c.2.2) := by
  induction calls using List.reverseRecOn with
  | nil => simp [interact]
  | append_singleton xs x ih =>
    rw [interact_snoc]
    simp [handleInteraction, ih]

theorem getInteractionData_times (p5 : P5) (s : State) (now : ℚ) :
    (getInteractionData p5 s now).interactionTimes
      = s.interactionTimes.filter (fun t => decide (now - t ≤ interactionWindow)) := rfl

theorem getInteractionData_idem (p5 : P5) (s : State) (now : ℚ) :
    getInteractionData p5 (getInteractionData p5 s now) now = getInteractionData p5 s now := by
  simp [getInteractionData, List.filter_filter]

/-- C13: after `getInteractionData` at `now`, `interactionTimes` is the list of the
timestamps `t` kept before the call with `now - t ≤ interactionWindow` (3000), in their
original order, and `interactionsPerSecond` is their number divided by 3; a second call
at the same `now` changes nothing; after a sequence of `handleInteraction` calls from
the initial state the timestamps kept are those of the calls. -/
theorem interactions_per_second (p5 : P5) (s : State) (now : ℚ) :
    (getInteractionData p5 s now).interactionTimes
        = s.interactionTimes.filter (fun t => decide (now - t ≤ 3000))
      ∧ (∀ t, t ∈ (getInteractionData p5 s now).interactionTimes
          ↔ t ∈ s.interactionTimes ∧ now - t ≤ 3000)
      ∧ (getInteractionData p5 s now).interactionTimes.Sublist s.interactionTimes
      ∧ (getInteractionData p5 s now).interactionsPerSecond
          = ((getInteractionData p5 s now).interactionTimes.length : ℚ) / 3
      ∧ getInteractionData p5 (getInteractionData p5 s now) now = getInteractionData p5 s now
      ∧ (∀ calls : List (ℚ × ℚ × ℚ),
          (getInteractionData p5 (interact init calls) now).interactionTimes
            = (calls.map (fun c => c.2.2)).filter (fun t => decide (now - t ≤ 3000))) := by
  have hw : interactionWindow = 3000 := rfl
  have h1 := getInteractionData_times p5 s now
  rw [hw] at h1
  refine ⟨h1, ?_, ?_, ?_, getInteractionData_idem p5 s now, ?_⟩
  · intro t
    rw [h1, List.mem_filter]
    simp
  · rw [h1]; exact List.filter_sublist _
  · have : (getInteractionData p5 s now).interactionsPerSecond
        = ((getInteractionData p5 s now).interactionTimes.length : ℚ)
            / (interactionWindow / 1000) := rfl
    rw [this, hw]
    norm_num
  · intro calls
    have h2 := getInteractionData_times p5 (interact init calls) now
    rw [hw, interact_times] at h2
    simpa [init] using h2

theorem interactions_per_second_witness :
    (2500 : ℚ) ∈ (getInteractionData ⟨fun _ _ _ _ => 0, fun _ _ => 0⟩
        (interact init [(1, 1, 0), (2, 2, 2500)]) 4000).interactionTimes := by
  refine ((interactions_per_second ⟨fun _ _ _ _ => 0, fun _ _ => 0⟩
    (interact init [(1, 1, 0), (2, 2, 2500)]) 4000).2.1 2500).2 ⟨?_, by norm_num⟩
  simp [interact, handleInteraction, init]

theorem touch_run_snoc (p5 : P5) (s : State) (evs : List Event) (ev : Event) :
    run p5 s (evs ++ [ev]) = step p5 (run p5 s evs) ev := by
  simp [run, List.foldl_append]

theorem step_toggle (p5 : P5) (s : State) (ev : Event)
    (h : s.toggleState = true ↔ s.totalInteractions % 2 = 1) :
    (step p5 s ev).toggleState = true ↔ (step p5 s ev).totalInteractions % 2 = 1 := by
  have hi : ∀ x y now, (handleInteraction s x y now).toggleState = true
      ↔ (handleInteraction s x y now).totalInteractions % 2 = 1 := by
    intro x y now
    simp only [handleInteraction]
    cases hs : s.toggleState
    · have : ¬ s.totalInteractions % 2 = 1 := fun hc => by
        have := h.2 hc; rw [hs] at this; exact Bool.noConfusion this
      simp; omega
    · have := h.1 hs
      simp; omega
  cases ev with
  | frame now => exact h
  | touch now touches =>
    cases touches with
    | nil => exact h
    | cons t rest => exact hi _ _ _
  | mouse now x y => exact hi _ _ _

/-- C14: in every state reached from the initial state (through `handleInteraction`
calls, also with `draw` frames in between) `toggleState` is true exactly when
`totalInteractions` is odd; each `handleInteraction(x, y)` adds 1 to `totalInteractions`,
flips `toggleState`, moves the last position into the previous one and sets the last
position to `(x, y)`. -/
theorem toggle_alternates (p5 : P5) (evs : List Event) :
    ((run p5 init evs).toggleState = true ↔ (run p5 init evs).totalInteractions % 2 = 1)
      ∧ (∀ calls : List (ℚ × ℚ × ℚ),
          ((interact init calls).toggleState = true ↔ (interact init calls).totalInteractions % 2 = 1)
            ∧ (interact init calls).totalInteractions = calls.length)
      ∧ (∀ (s : State) (x y now : ℚ),
          (handleInteraction s x y now).totalInteractions = s.totalInteractions + 1
            ∧ (handleInteraction s x y now).toggleState = !s.toggleState
            ∧ (handleInteraction s x y now).prevInteractionX = s.lastInteractionX
            ∧ (handleInteraction s x y now).prevInteractionY = s.lastInteractionY
            ∧ (handleInteraction s x y now).lastInteractionX = x
            ∧ (handleInteraction s x y now).lastInteractionY = y) := by
  refine ⟨?_, ?_, ?_⟩
  · induction evs using List.reverseRecOn with
    | nil => simp [run, init]
    | append_singleton xs x ih =>
      rw [touch_run_snoc]
      exact step_toggle p5 _ x ih
  · intro calls
    induction calls using List.reverseRecOn with
    | nil => simp [interact, init]
    | append_singleton xs x ih =>
      rw [interact_snoc]
      obtain ⟨ih1, ih2⟩ := ih
      have h := step_toggle p5 (interact init xs) (.mouse x.2.2 x.1 x.2.1) ih1
      refine ⟨h, ?_⟩
      simp [handleInteraction, ih2]
  · intro s x y now
    exact ⟨rfl, rfl, rfl, rfl, rfl, rfl⟩

end SingleTouch

end ExperimentalUX

/-! ## Multi_Touch: the distances between all pairs -/

namespace ExperimentalUX

namespace MultiTouch

theorem foldl_pairBody (p5 : P5) (pts : List TouchPoint) (i : Nat) (l : List Nat)
    (acc : List DistanceEntry × ℚ) :
    l.foldl (fun a j => pairBody p5 pts i j a) acc
      = (acc.1 ++ l.map (fun j => pairEntry p5 pts i j),
         acc.2 + (l.map (fun j => calculateDistance p5 (pointAt pts i) (pointAt pts j))).sum) := by
  induction l generalizing acc with
  | nil => simp
  | cons j l ih =>
    rw [List.foldl_cons, ih]
    simp [pairBody, pairEntry, add_assoc]

theorem foldl_outer (p5 : P5) (pts : List TouchPoint) (n : Nat) (l : List Nat)
    (acc : List DistanceEntry × ℚ) :
    l.foldl (fun a i => forLoop (i + 1) n (pairBody p5 pts i) a) acc
      = (acc.1 ++ l.flatMap (fun i => (List.range' (i + 1) (n - (i + 1))).map
            (fun j => pairEntry p5 pts i j)),
         acc.2 + ((l.flatMap (fun i => (List.range' (i + 1) (n - (i + 1))).map
            (fun j => pairEntry p5 pts i j))).map (fun e => e.distance)).sum) := by
  induction l generalizing acc with
  | nil => simp
  | cons i l ih =>
    rw [List.foldl_cons, ih]
    simp only [forLoop, foldl_pairBody, List.flatMap_cons, List.append_assoc, List.map_append,
      List.sum_append, List.map_map, add_assoc]
    rfl

theorem map_copy (touches : List TouchPoint) :
    touches.map (fun t => ({ x := t.x, y := t.y, id := t.id } : TouchPoint)) = touches := by
  induction touches with
  | nil => rfl
  | cons t ts ih => simp

theorem getTouchData_pairs (p5 : P5) (s : State) (touches : List TouchPoint) (now : ℚ) :
    (getTouchData p5 s touches now).touchDistances
        = (indexPairs touches.length).map (fun p => pairEntry p5 touches p.1 p.2)
      ∧ (getTouchData p5 s touches now).totalLength
        = ((getTouchData p5 s touches now).touchDistances.map (fun e => e.distance)).sum := by
  simp only [getTouchData, map_copy]
  rw [forLoop, foldl_outer]
  simp only [Nat.sub_zero, List.nil_append, zero_add, and_true]
  rw [← List.range_eq_range', indexPairs, List.map_flatMap]
  simp [List.map_map, Function.comp_def]

theorem sum_range_sub (n m : Nat) (h : n ≤ m) :
    2 * ((List.range n).map (fun i => m - (i + 1))).sum + n * (n + 1) = 2 * n * m := by
  induction n with
  | zero => simp
  | succ n ih =>
    have ih2 := ih (by omega)
    rw [List.range_succ, List.map_append, List.sum_append]
    simp only [List.map_cons, List.map_nil, List.sum_cons, List.sum_nil, Nat.add_zero]
    obtain ⟨k, rfl⟩ : ∃ k, m = n + 1 + k := ⟨m - (n + 1), by omega⟩
    have hk : n + 1 + k - (n + 1) = k := by omega
    rw [hk]
    nlinarith [ih2]

theorem indexPairs_length (n : Nat) : (indexPairs n).length = n * (n - 1) / 2 := by
  have h1 : (indexPairs n).length = ((List.range n).map (fun i => n - (i + 1))).sum := by
    rw [indexPairs, List.length_flatMap]
    congr 1
    apply List.map_congr_left
    intro i _
    simp
  have h2 := sum_range_sub n n (le_refl _)
  rw [h1]
  cases n with
  | zero => simp
  | succ k =>
    simp only [Nat.add_sub_cancel]
    have h3 : 2 * ((List.range (k + 1)).map (fun i => k + 1 - (i + 1))).sum = (k + 1) * k := by
      nlinarith [h2]
    omega

theorem mem_indexPairs (n i j : Nat) : (i, j) ∈ indexPairs n ↔ i < j ∧ j < n := by
  simp only [indexPairs, List.mem_flatMap, List.mem_range, List.mem_map, List.mem_range'_1,
    Prod.mk.injEq]
  constructor
  · rintro ⟨a, ha, b, ⟨hb1, hb2⟩, rfl, rfl⟩
    omega
  · rintro ⟨h1, h2⟩
    exact ⟨i, by omega, j, ⟨by omega, by omega⟩, rfl, rfl⟩

theorem indexPairs_sorted (n : Nat) :
    (indexPairs n).Pairwise (fun p q => p.1 < q.1 ∨ (p.1 = q.1 ∧ p.2 < q.2)) := by
  rw [indexPairs, List.pairwise_flatMap]
  constructor
  · intro i _
    rw [List.pairwise_map]
    exact (List.pairwise_lt_range' (i + 1) (n - (i + 1))).imp (fun h => Or.inr ⟨rfl, h⟩)
  · refine (List.pairwise_lt_range n).imp ?_
    intro a b hab x hx y hy
    simp only [List.mem_map] at hx hy
    obtain ⟨_, _, rfl⟩ := hx
    obtain ⟨_, _, rfl⟩ := hy
    exact Or.inl hab

theorem pointAt_eq (touches : List TouchPoint) (k : Nat) (h : k < touches.length) :
    pointAt touches k = touches.get ⟨k, h⟩ := by
  simp [pointAt, List.getD, List.getElem?_eq_getElem h]

/-- C15: for every list of `n` current touches, `getTouchData` leaves in
`touchDistances` one entry for each index pair `i < j < n`, in lexicographic order,
`n (n - 1) / 2` entries in all; the entry of `(i, j)` is labelled `(i+1) + "-" + (j+1)` and
holds `dist(x_i, y_i, x_j, y_j)` of the points `i` and `j` of `touches`, which is what
`calculateDistance` returns; `totalLength` is the sum of the `distance` fields, that is
of these distances, and with fewer than two touches there are no entries and the sum is
0. -/
theorem all_pairs_distances (p5 : P5) (s : State) (touches : List TouchPoint) (now : ℚ) :
    (getTouchData p5 s touches now).touchPoints = touches
      ∧ (getTouchData p5 s touches now).touchDistances
        = (indexPairs touches.length).map (fun p => pairEntry p5 touches p.1 p.2)
      ∧ (getTouchData p5 s touches now).touchDistances.length
        = touches.length * (touches.length - 1) / 2
      ∧ (∀ i j : Nat, (i, j) ∈ indexPairs touches.length ↔ i < j ∧ j < touches.length)
      ∧ (indexPairs touches.length).Pairwise
          (fun p q => p.1 < q.1 ∨ (p.1 = q.1 ∧ p.2 < q.2))
      ∧ (∀ (k : Nat) (h : k < touches.length), pointAt touches k = touches.get ⟨k, h⟩)
      ∧ (∀ i j : Nat, pairLabel i j = toString (i + 1) ++ "-" ++ toString (j + 1))
      ∧ (indexPairs 3).map (fun p => pairLabel p.1 p.2) = ["1-2", "1-3", "2-3"]
      ∧ (getTouchData p5 s touches now).totalLength
        = ((getTouchData p5 s touches now).touchDistances.map (fun e => e.distance)).sum
      ∧ (touches.length < 2 →
          (getTouchData p5 s touches now).touchDistances = []
            ∧ (getTouchData p5 s touches now).totalLength = 0)
      ∧ (∀ a b : TouchPoint, calculateDistance p5 a b = p5.dist a.x a.y b.x b.y)
      ∧ (getTouchData p5 s touches now).touchDistances
        = (indexPairs touches.length).map (fun p =>
            DistanceEntry.mk (toString (p.1 + 1) ++ "-" ++ toString (p.2 + 1))
              (p5.dist (pointAt touches p.1).x (pointAt touches p.1).y
                (pointAt touches p.2).x (pointAt touches p.2).y))
      ∧ (∀ (i j : Nat) (hij : i < j) (hj : j < touches.length),
          DistanceEntry.mk (toString (i + 1) ++ "-" ++ toString (j + 1))
              (p5.dist (touches.get ⟨i, Nat.lt_trans hij hj⟩).x
                (touches.get ⟨i, Nat.lt_trans hij hj⟩).y
                (touches.get ⟨j, hj⟩).x (touches.get ⟨j, hj⟩).y)
            ∈ (getTouchData p5 s touches now).touchDistances)
      ∧ (getTouchData p5 s touches now).totalLength
        = ((indexPairs touches.length).map (fun p =>
            p5.dist (pointAt touches p.1).x (pointAt touches p.1).y
              (pointAt touches p.2).x (pointAt touches p.2).y)).sum := by
  obtain ⟨h1, h2⟩ := getTouchData_pairs p5 s touches now
  have hlen : (getTouchData p5 s touches now).touchDistances.length
      = touches.length * (touches.length - 1) / 2 := by
    rw [h1, List.length_map, indexPairs_length]
  have hexp : (getTouchData p5 s touches now).touchDistances
        = (indexPairs touches.length).map (fun p =>
            DistanceEntry.mk (toString (p.1 + 1) ++ "-" ++ toString (p.2 + 1))
              (p5.dist (pointAt touches p.1).x (pointAt touches p.1).y
                (pointAt touches p.2).x (pointAt touches p.2).y)) := by
    rw [h1]; rfl
  refine ⟨?_, h1, hlen, mem_indexPairs _, indexPairs_sorted _, pointAt_eq touches,
    fun _ _ => rfl, by decide, h2, ?_, fun _ _ => rfl, hexp, ?_, ?_⟩
  · simp only [getTouchData, map_copy]
  · intro hlt
    have h0 : (getTouchData p5 s touches now).touchDistances = [] := by
      apply List.length_eq_zero.1
      rw [hlen]
      have : touches.length = 0 ∨ touches.length = 1 := by omega
      rcases this with h | h <;> simp [h]
    refine ⟨h0, ?_⟩
    rw [h2, h0]
    rfl
  · intro i j hij hj
    rw [hexp, List.mem_map]
    refine ⟨(i, j), (mem_indexPairs _ i j).2 ⟨hij, hj⟩, ?_⟩
    simp only [pointAt_eq touches i (Nat.lt_trans hij hj), pointAt_eq touches j hj]
  · rw [h2, hexp, List.map_map]
    rfl

end MultiTouch

end ExperimentalUX

namespace ExperimentalUX

namespace MultiTouch

theorem all_pairs_distances_witness :
    (0 : Nat) < 2
      ∧ 2 < [(⟨0, 0, 7⟩ : TouchPoint), ⟨3, 4, 8⟩, ⟨6, 8, 9⟩].length
      ∧ DistanceEntry.mk "1-3" 100
          ∈ (getTouchData
              ⟨fun x1 y1 x2 y2 => (x2 - x1) ^ 2 + (y2 - y1) ^ 2, fun _ _ => 0⟩
              init [⟨0, 0, 7⟩, ⟨3, 4, 8⟩, ⟨6, 8, 9⟩] 16).touchDistances := by
  have h1 : (0 : Nat) < 2 := by decide
  have h2 : 2 < [(⟨0, 0, 7⟩ : TouchPoint), ⟨3, 4, 8⟩, ⟨6, 8, 9⟩].length := by decide
  have h := (all_pairs_distances
    ⟨fun x1 y1 x2 y2 => (x2 - x1) ^ 2 + (y2 - y1) ^ 2, fun _ _ => 0⟩
    init [⟨0, 0, 7⟩, ⟨3, 4, 8⟩, ⟨6, 8, 9⟩] 16).2.2.2.2.2.2.2.2.2.2.2.2.1 0 2 h1 h2
  have hl : toString (0 + 1) ++ "-" ++ toString (2 + 1) = "1-3" := by decide
  rw [hl] at h
  norm_num at h
  exact ⟨h1, h2, h⟩

end MultiTouch

end ExperimentalUX

/-! ## Scroll: direction, state and the scroll range -/

namespace ExperimentalUX

namespace JSNum

theorem lt_asymm (a b : JSNum) (h : lt a b = true) : lt b a = false := by
  cases a <;> cases b <;> simp_all [lt]
  exact le_of_lt h

theorem add_nan_left (a : JSNum) : add nan a = nan := by cases a <;> rfl

theorem not_lt_of_strictEq (a b : JSNum) (h : strictEq a b = true) :
    lt a b = false ∧ lt b a = false := by
  cases a <;> cases b <;> simp_all [strictEq, lt]

theorem strictEq_of_not_lt (a b : JSNum) (ha : a ≠ nan) (hb : b ≠ nan)
    (h1 : lt a b = false) (h2 : lt b a = false) : strictEq a b = true := by
  cases a <;> cases b <;> simp_all [strictEq, lt]
  exact le_antisymm h2 h1

end JSNum

namespace Scroll

theorem updateScrollState_direction (s : State) (p : JSNum) (now : ℚ) :
    (updateScrollState s p now).scrollDirection
        = (if JSNum.gt s.scrollY p = true then "Down"
           else if JSNum.lt s.scrollY p = true then "Up" else "None")
      ∧ (updateScrollState s p now).scrollState
        = (if JSNum.gt s.scrollY p = true then 1
           else if JSNum.lt s.scrollY p = true then 2 else 0) :=
  ⟨rfl, rfl⟩

/-- C16: after `updateScrollState(previousScrollY)` the pair (`scrollDirection`,
`scrollState`) is ("Down", 1) exactly when `scrollY > previousScrollY`, ("Up", 2) exactly
when `scrollY < previousScrollY`, and ("None", 0) exactly when neither holds, which for
values other than `NaN` is exactly when they are equal; `lastChangeTime` is set to the
current time exactly when `scrollY !== previousScrollY`, `lastDirectionChangeTime` exactly
when the direction changed.  With `scrollY = NaN` the call reports ("None", 0) although
`scrollY` differs from `previousScrollY`: a tap whose `touchstart` and `touchend` read
the same clock value leaves `momentum = NaN`, and the next `draw` tick makes such a
call (previous value 0, `lastChangeTime` set to the tick time). -/
theorem scroll_direction_and_state (s : State) (previousScrollY : JSNum) (now : ℚ) :
    (((updateScrollState s previousScrollY now).scrollDirection = "Down"
          ∧ (updateScrollState s previousScrollY now).scrollState = 1)
        ↔ JSNum.gt s.scrollY previousScrollY = true)
      ∧ (((updateScrollState s previousScrollY now).scrollDirection = "Up"
          ∧ (updateScrollState s previousScrollY now).scrollState = 2)
        ↔ JSNum.lt s.scrollY previousScrollY = true)
      ∧ (((updateScrollState s previousScrollY now).scrollDirection = "None"
          ∧ (updateScrollState s previousScrollY now).scrollState = 0)
        ↔ (JSNum.gt s.scrollY previousScrollY = false
            ∧ JSNum.lt s.scrollY previousScrollY = false))
      ∧ (s.scrollY ≠ .nan → previousScrollY ≠ .nan →
          (((updateScrollState s previousScrollY now).scrollDirection = "None"
              ∧ (updateScrollState s previousScrollY now).scrollState = 0)
            ↔ JSNum.strictEq s.scrollY previousScrollY = true))
      ∧ (updateScrollState s previousScrollY now).lastChangeTime
          = (if JSNum.strictEq s.scrollY previousScrollY = true then s.lastChangeTime else now)
      ∧ (updateScrollState s previousScrollY now).lastDirectionChangeTime
          = (if (updateScrollState s previousScrollY now).scrollDirection = s.scrollDirection
             then s.lastDirectionChangeTime else now)
      ∧ ((run (setup 0) [.touchStart 10 100, .touchEnd 10]).scrollY = .fin 0
          ∧ (run (setup 0) [.touchStart 10 100, .touchEnd 10]).lastChangeTime = 0
          ∧ JSNum.add (run (setup 0) [.touchStart 10 100, .touchEnd 10]).scrollY
              (run (setup 0) [.touchStart 10 100, .touchEnd 10]).momentum = .nan
          ∧ JSNum.strictEq .nan (.fin 0) = false
          ∧ (applyMomentum (run (setup 0) [.touchStart 10 100, .touchEnd 10]) 20).scrollDirection
              = "None"
          ∧ (applyMomentum (run (setup 0) [.touchStart 10 100, .touchEnd 10]) 20).scrollState = 0
          ∧ (applyMomentum (run (setup 0) [.touchStart 10 100, .touchEnd 10]) 20).lastChangeTime
              = 20) := by
  obtain ⟨hd, hs⟩ := updateScrollState_direction s previousScrollY now
  have hnone : ((updateScrollState s previousScrollY now).scrollDirection = "None"
          ∧ (updateScrollState s previousScrollY now).scrollState = 0)
        ↔ (JSNum.gt s.scrollY previousScrollY = false
            ∧ JSNum.lt s.scrollY previousScrollY = false) := by
    rw [hd, hs]
    by_cases h1 : JSNum.gt s.scrollY previousScrollY = true
    · simp [h1]
    · by_cases h2 : JSNum.lt s.scrollY previousScrollY = true
      · simp [h1, h2]
      · simp [h1, h2]
  refine ⟨?_, ?_, hnone, ?_, ?_, ?_, ?_⟩
  · rw [hd, hs]
    by_cases h1 : JSNum.gt s.scrollY previousScrollY = true
    · simp [h1]
    · by_cases h2 : JSNum.lt s.scrollY previousScrollY = true
      · simp [h1, h2]
      · simp [h1, h2]
  · rw [hd, hs]
    by_cases h2 : JSNum.lt s.scrollY previousScrollY = true
    · have h1 : JSNum.gt s.scrollY previousScrollY = false := JSNum.lt_asymm _ _ h2
      simp [h1, h2]
    · by_cases h1 : JSNum.gt s.scrollY previousScrollY = true
      · simp [h1, h2]
      · simp [h1, h2]
  · intro ha hb
    rw [hnone]
    constructor
    · rintro ⟨h1, h2⟩
      exact JSNum.strictEq_of_not_lt _ _ ha hb h2 h1
    · intro h
      obtain ⟨h1, h2⟩ := JSNum.not_lt_of_strictEq _ _ h
      exact ⟨h2, h1⟩
  · simp only [updateScrollState]
    by_cases h : JSNum.strictEq s.scrollY previousScrollY = true <;> simp [h]
  · simp only [updateScrollState]
    split_ifs <;> simp_all
  · norm_num [run, step, setup, handleTouchStart, handleTouchEnd, JSNum.div, JSNum.infOfSign,
      JSNum.neg, JSNum.mul, applyMomentum, updateScrollState,
      JSNum.strictEq, JSNum.add, JSNum.abs, JSNum.lt, JSNum.gt]

theorem scroll_direction_and_state_witness :
    (mouseWheel (setup 0) 1 5).scrollY ≠ .nan ∧ JSNum.fin 0 ≠ .nan
      ∧ (((updateScrollState (mouseWheel (setup 0) 1 5) (.fin 0) 6).scrollDirection = "None"
            ∧ (updateScrollState (mouseWheel (setup 0) 1 5) (.fin 0) 6).scrollState = 0)
          ↔ JSNum.strictEq (mouseWheel (setup 0) 1 5).scrollY (.fin 0) = true) := by
  have h1 : (mouseWheel (setup 0) 1 5).scrollY ≠ .nan := by
    simp [mouseWheel, setup, updateScrollState, JSNum.add]
  have h2 : JSNum.fin 0 ≠ .nan := by simp
  exact ⟨h1, h2, (scroll_direction_and_state (mouseWheel (setup 0) 1 5) (.fin 0) 6).2.2.2.1 h1 h2⟩

end Scroll

end ExperimentalUX

namespace ExperimentalUX

namespace Scroll

theorem constrain_nan : constrain .nan (.fin 0) (.fin maxScroll) = .nan := rfl

theorem constrain_range (n : JSNum) (h : n ≠ .nan) :
    ∃ q : ℚ, constrain n (.fin 0) (.fin maxScroll) = .fin q ∧ 0 ≤ q ∧ q ≤ maxScroll := by
  cases n with
  | fin a =>
    refine ⟨max (min a maxScroll) 0, ?_, le_max_right _ _, ?_⟩
    · simp [constrain, JSNum.min_fin, JSNum.max_fin]
    · exact max_le (min_le_right _ _) (by norm_num [maxScroll])
  | posInf =>
    refine ⟨maxScroll, ?_, by norm_num [maxScroll], le_refl _⟩
    simp [constrain, JSNum.min, JSNum.max, JSNum.lt, maxScroll]
  | negInf =>
    refine ⟨0, ?_, le_refl _, by norm_num [maxScroll]⟩
    simp [constrain, JSNum.min, JSNum.max, JSNum.lt]
  | nan => exact absurd rfl h

theorem draw_scrollY (s : State) (now : ℚ) :
    (draw s now).scrollY
      = constrain
          (if (!s.isTouching && !(JSNum.strictEq s.momentum (.fin 0))) = true
            then JSNum.add s.scrollY s.momentum else s.scrollY)
          (.fin 0) (.fin maxScroll) := by
  unfold draw
  simp only []
  split_ifs <;> simp_all [applyMomentum, updateScrollState, recordSpeed]

theorem step_scrollY_nan (s : State) (ev : Event) (h : s.scrollY = .nan) :
    (step s ev).scrollY = .nan := by
  cases ev with
  | tick now =>
    simp only [step]
    rw [draw_scrollY, h]
    split_ifs
    · rw [JSNum.add_nan_left]; rfl
    · rfl
  | touchStart now y => exact h
  | touchMove now touches =>
    cases touches with
    | nil => exact h
    | cons y rest =>
      simp only [step, handleTouchMove, updateScrollState, h, JSNum.add_nan_left]
  | touchEnd now => exact h
  | wheel now delta =>
    simp only [step, mouseWheel, updateScrollState, h, JSNum.sub, JSNum.add_nan_left]
    split_ifs <;> rfl
  | key k =>
    simp only [step, keyPressed]
    split_ifs
    · exact h
    · exact h

theorem run_scrollY_nan (evs : List Event) : ∀ (s : State), s.scrollY = .nan →
    (run s evs).scrollY = .nan := by
  induction evs with
  | nil => intro s h; exact h
  | cons ev evs ih => intro s h; exact ih _ (step_scrollY_nan s ev h)

/-- C17: at the end of a `draw` tick `scrollY` is either `NaN` or a finite value with
`0 ≤ scrollY ≤ maxScroll`; it is in range whenever `scrollY` was finite and `momentum` was
not `NaN` before the tick.  After a tap whose `touchstart` and `touchend` read the same
clock value, `momentum` is `NaN`, the next tick ends with `scrollY = NaN` (neither
`scrollY >= 0` nor `maxScroll >= scrollY` holds) and `scrollY` stays `NaN` after every
later event. -/
theorem scroll_position_range :
    (∀ (s : State) (now : ℚ),
        (draw s now).scrollY = .nan
          ∨ ∃ q : ℚ, (draw s now).scrollY = .fin q ∧ 0 ≤ q ∧ q ≤ maxScroll)
      ∧ (∀ (s : State) (now y : ℚ), s.scrollY = .fin y → s.momentum ≠ .nan →
          ∃ q : ℚ, (draw s now).scrollY = .fin q ∧ 0 ≤ q ∧ q ≤ maxScroll)
      ∧ ((run (setup 0) [.touchStart 10 100, .touchEnd 10]).momentum = .nan
          ∧ (run (setup 0) [.touchStart 10 100, .touchEnd 10, .tick 20]).scrollY = .nan
          ∧ JSNum.ge (run (setup 0) [.touchStart 10 100, .touchEnd 10, .tick 20]).scrollY
              (.fin 0) = false
          ∧ JSNum.ge (.fin maxScroll)
              (run (setup 0) [.touchStart 10 100, .touchEnd 10, .tick 20]).scrollY = false)
      ∧ (∀ evs : List Event,
          (run (setup 0) ([.touchStart 10 100, .touchEnd 10, .tick 20] ++ evs)).scrollY
            = .nan) := by
  have hrun : (run (setup 0) [.touchStart 10 100, .touchEnd 10, .tick 20]).scrollY = .nan := by
    norm_num [run, step, setup, handleTouchStart, handleTouchEnd, JSNum.div, JSNum.infOfSign,
      JSNum.neg, JSNum.mul, draw, recordSpeed, applyMomentum, updateScrollState, constrain,
      JSNum.strictEq, JSNum.add, JSNum.abs, JSNum.lt, JSNum.gt, JSNum.min, JSNum.max]
  refine ⟨?_, ?_, ⟨?_, hrun, ?_, ?_⟩, ?_⟩
  · intro s now
    rw [draw_scrollY]
    by_cases h : (if (!s.isTouching && !(JSNum.strictEq s.momentum (.fin 0))) = true
            then JSNum.add s.scrollY s.momentum else s.scrollY) = .nan
    · left; rw [h]; rfl
    · right; exact constrain_range _ h
  · intro s now y hy hm
    rw [draw_scrollY]
    apply constrain_range
    rw [hy]
    split_ifs
    · cases hmm : s.momentum <;> simp_all [JSNum.add]
    · simp
  · norm_num [run, step, setup, handleTouchStart, handleTouchEnd, JSNum.div, JSNum.infOfSign,
      JSNum.neg, JSNum.mul]
  · rw [hrun]; rfl
  · rw [hrun]; rfl
  · intro evs
    have : run (setup 0) ([.touchStart 10 100, .touchEnd 10, .tick 20] ++ evs)
        = run (run (setup 0) [.touchStart 10 100, .touchEnd 10, .tick 20]) evs := by
      simp [run, List.foldl_append]
    rw [this]
    exact run_scrollY_nan evs _ hrun

theorem scroll_position_range_witness :
    (setup 0).scrollY = .fin 0 ∧ (setup 0).momentum ≠ .nan
      ∧ ∃ q : ℚ, (draw (setup 0) 16).scrollY = .fin q ∧ 0 ≤ q ∧ q ≤ maxScroll := by
  have h2 : (setup 0).momentum ≠ .nan := by simp [setup]
  exact ⟨rfl, h2, scroll_position_range.2.1 (setup 0) 16 0 rfl h2⟩

end Scroll

end ExperimentalUX

/-! ## Binary64 rounding -/

namespace ExperimentalUX

namespace JSNum

theorem log_eq_of_bounds (x : ℚ) (e : ℤ) (h1 : (2 : ℚ) ^ e ≤ |x|) (h2 : |x| < (2 : ℚ) ^ (e + 1)) :
    Int.log 2 |x| = e := by
  have hpos : 0 < |x| := lt_of_lt_of_le (zpow_pos (by norm_num) e) h1
  have hb : 1 < 2 := by norm_num
  apply le_antisymm
  · have := (Int.lt_zpow_iff_log_lt hb hpos (x := e + 1)).1 (by exact_mod_cast h2)
    omega
  · exact (Int.zpow_le_iff_le_log hb hpos).1 (by exact_mod_cast h1)

theorem ulp_eq (x : ℚ) (e : ℤ) (h1 : (2 : ℚ) ^ e ≤ |x|) (h2 : |x| < (2 : ℚ) ^ (e + 1))
    (he : -1022 ≤ e) : ulp x = (2 : ℚ) ^ (e - 52) := by
  rw [ulp, log_eq_of_bounds x e h1 h2, max_eq_left he]

theorem roundEven_floor (x : ℚ) (f : ℤ) (hf : ⌊x⌋ = f) :
    roundEven x = if x - f < 1 / 2 then f
      else if 1 / 2 < x - f then f + 1
      else if f % 2 = 0 then f else f + 1 := by
  rw [roundEven, hf]

theorem roundQ_eval (x : ℚ) (e f n : ℤ) (h1 : (2 : ℚ) ^ e ≤ |x|) (h2 : |x| < (2 : ℚ) ^ (e + 1))
    (he : -1022 ≤ e) (hf : ⌊x / (2 : ℚ) ^ (e - 52)⌋ = f)
    (hn : (if x / (2 : ℚ) ^ (e - 52) - f < 1 / 2 then f
      else if 1 / 2 < x / (2 : ℚ) ^ (e - 52) - f then f + 1
      else if f % 2 = 0 then f else f + 1) = n) :
    roundQ x = n * (2 : ℚ) ^ (e - 52) := by
  rw [roundQ, ulp_eq x e h1 h2 he, roundEven_floor _ f hf, hn]

end JSNum

end ExperimentalUX

namespace ExperimentalUX

namespace JSNum

theorem roundEven_zero : roundEven 0 = 0 := by
  simp [roundEven]

theorem roundEven_error (x : ℚ) : |(roundEven x : ℚ) - x| ≤ 1 / 2 := by
  have h1 : (⌊x⌋ : ℚ) ≤ x := Int.floor_le x
  have h2 : x < (⌊x⌋ : ℚ) + 1 := Int.lt_floor_add_one x
  rw [roundEven]
  split_ifs with a b c
  · rw [abs_le]; constructor <;> linarith
  · rw [abs_le]; push_cast; constructor <;> linarith
  · rw [abs_le]; constructor <;> linarith
  · rw [abs_le]; push_cast; constructor <;> linarith

theorem ulp_pos (x : ℚ) : 0 < ulp x := zpow_pos (by norm_num) _

theorem ulp_le (x : ℚ) (hx : x ≠ 0) :
    ulp x ≤ |x| * (1 / 2 ^ 52) + 1 / 2 ^ 1074 := by
  have hpos : 0 < |x| := abs_pos.2 hx
  rw [ulp]
  rcases le_total (Int.log 2 |x|) (-1022) with h | h
  · rw [max_eq_right h]
    have : (2 : ℚ) ^ ((-1022 : ℤ) - 52) = 1 / 2 ^ 1074 := by
      rw [show ((-1022 : ℤ) - 52) = -((1074 : ℕ) : ℤ) by norm_num, zpow_neg, zpow_natCast]
      simp
    rw [this]
    have : 0 ≤ |x| * (1 / 2 ^ 52) := by positivity
    linarith
  · rw [max_eq_left h, zpow_sub₀ (by norm_num : (2 : ℚ) ≠ 0)]
    have h1 : (2 : ℚ) ^ Int.log 2 |x| ≤ |x| := by
      have := Int.zpow_log_le_self (b := 2) (r := |x|) (by norm_num) hpos
      exact_mod_cast this
    have h2 : (2 : ℚ) ^ (52 : ℤ) = 2 ^ 52 := by norm_cast
    rw [h2, div_eq_mul_one_div]
    have h3 : (2 : ℚ) ^ Int.log 2 |x| * (1 / 2 ^ 52) ≤ |x| * (1 / 2 ^ 52) :=
      mul_le_mul_of_nonneg_right h1 (by positivity)
    have : (0 : ℚ) ≤ 1 / 2 ^ 1074 := by positivity
    linarith

theorem roundQ_zero : roundQ 0 = 0 := by
  simp [roundQ, roundEven_zero]

theorem roundQ_error (x : ℚ) : |roundQ x - x| ≤ |x| * (1 / 2 ^ 53) + 1 / 2 ^ 1075 := by
  by_cases hx : x = 0
  · subst hx
    rw [roundQ_zero]
    simp
  · have hU := ulp_pos x
    have hle := ulp_le x hx
    have herr := roundEven_error (x / ulp x)
    have heq : roundQ x - x = ((roundEven (x / ulp x) : ℚ) - x / ulp x) * ulp x := by
      rw [roundQ]
      field_simp
    rw [heq, abs_mul, abs_of_pos hU]
    have h1 : |(roundEven (x / ulp x) : ℚ) - x / ulp x| * ulp x ≤ 1 / 2 * ulp x :=
      mul_le_mul_of_nonneg_right herr (le_of_lt hU)
    have h2 : (1 : ℚ) / 2 * (|x| * (1 / 2 ^ 52) + 1 / 2 ^ 1074)
        = |x| * (1 / 2 ^ 53) + 1 / 2 ^ 1075 := by
      ring
    have h3 : (1 : ℚ) / 2 * ulp x ≤ 1 / 2 * (|x| * (1 / 2 ^ 52) + 1 / 2 ^ 1074) :=
      mul_le_mul_of_nonneg_left hle (by norm_num)
    linarith

theorem abs_roundQ_le (x : ℚ) : |roundQ x| ≤ 2 * |x| + 1 := by
  have h := roundQ_error x
  have h1 : |roundQ x| ≤ |roundQ x - x| + |x| := by
    have := abs_add (roundQ x - x) x
    simpa using this
  have h2 : |x| * (1 / 2 ^ 53) ≤ |x| := by
    have : (0 : ℚ) ≤ |x| := abs_nonneg x
    nlinarith
  have h3 : (1 : ℚ) / 2 ^ 1075 ≤ 1 := by
    rw [div_le_iff₀ (by positivity)]
    have : (1 : ℚ) ≤ 2 ^ 1075 := one_le_pow₀ (by norm_num)
    linarith
  linarith

theorem toDouble_fin (x : ℚ) (hx : |x| ≤ 2 ^ 1010) : toDouble x = fin (roundQ x) := by
  rw [toDouble, if_neg]
  have h := abs_roundQ_le x
  have h1 : (2 : ℚ) * 2 ^ 1010 + 1 < 2 ^ 1024 := by norm_num
  intro hc
  linarith

end JSNum

end ExperimentalUX

namespace ExperimentalUX

namespace JSNum

theorem abs_sum_le (vs : List ℚ) (A : ℚ) (hv : ∀ v ∈ vs, |v| ≤ A) :
    |vs.sum| ≤ vs.length * A := by
  induction vs with
  | nil => simp
  | cons x xs ih =>
    have h1 := hv x (List.mem_cons_self _ _)
    have h2 := ih (fun v hv2 => hv v (List.mem_cons_of_mem _ hv2))
    simp only [List.sum_cons, List.length_cons, Nat.cast_add, Nat.cast_one]
    have := abs_add x xs.sum
    linarith

theorem sum_step_bound (u η NA k D ry yT ya L : ℚ) (h1 : L ≤ ry + yT)
    (hr : ry ≤ ya * u + η) (h2 : ya ≤ NA + 2 * k * D) (hu : 0 ≤ u)
    (h3 : 2 * k * D * u ≤ D) (hy : yT ≤ 2 * k * D) (hD : NA * u + η = D) :
    L ≤ 2 * (k + 1) * D := by
  have := mul_le_mul_of_nonneg_right h2 hu
  nlinarith

theorem pow_1000_div : (2 : ℚ) ^ 1000 * (1 / 2 ^ 53) = 2 ^ 947 := by
  have e : (2 : ℚ) ^ 1000 = 2 ^ 947 * 2 ^ 53 := by rw [← pow_add]
  rw [e]
  field_simp

theorem eta_le_one : (1 : ℚ) / 2 ^ 1075 ≤ 1 := by
  rw [div_le_iff₀ (by positivity)]
  have : (1 : ℚ) ≤ 2 ^ 1075 := one_le_pow₀ (by norm_num)
  linarith

theorem small_count (k : ℚ) (hk : k ≤ 2 ^ 20) (D : ℚ) (hD0 : 0 ≤ D) :
    2 * k * D * (1 / 2 ^ 53) ≤ D := by
  have h4 : 2 * k * (1 / 2 ^ 53) ≤ 1 := by
    have h5 : 2 * k * (1 / 2 ^ 53) ≤ 2 * 2 ^ 20 * (1 / 2 ^ 53) :=
      mul_le_mul_of_nonneg_right (by linarith) (by positivity)
    have h6 : (2 : ℚ) * 2 ^ 20 * (1 / 2 ^ 53) ≤ 1 := by norm_num
    linarith
  have := mul_le_mul_of_nonneg_right h4 hD0
  calc 2 * k * D * (1 / 2 ^ 53) = 2 * k * (1 / 2 ^ 53) * D := by ring
    _ ≤ 1 * D := this
    _ = D := one_mul D

theorem slack_le (N : ℕ) (A : ℚ) (hB : N * A ≤ 2 ^ 1000) :
    (N : ℚ) * A * (1 / 2 ^ 53) + 1 / 2 ^ 1075 ≤ 2 ^ 947 + 1 := by
  have h1 : (N : ℚ) * A * (1 / 2 ^ 53) ≤ 2 ^ 1000 * (1 / 2 ^ 53) :=
    mul_le_mul_of_nonneg_right hB (by positivity)
  rw [pow_1000_div] at h1
  have h2 := eta_le_one
  linarith

theorem below_overflow (y NA kD : ℚ) (h : |y| ≤ NA + 2 * kD) (h1 : NA ≤ 2 ^ 1000)
    (h2 : kD ≤ 2 ^ 20 * (2 ^ 947 + 1)) : |y| ≤ 2 ^ 1010 := by
  have h3 : (2 : ℚ) ^ 1000 + 2 * (2 ^ 20 * (2 ^ 947 + 1)) ≤ 2 ^ 1010 := by norm_num
  linarith

theorem sumD_error (N : ℕ) (A : ℚ) (hA : 0 ≤ A) (hN : (N : ℚ) ≤ 2 ^ 20)
    (hB : N * A ≤ 2 ^ 1000) (vs : List ℚ) :
    vs.length ≤ N → (∀ v ∈ vs, |v| ≤ A) →
      ∃ sh : ℚ, (vs.map fin).foldl addD (fin 0) = fin sh
        ∧ |sh - vs.sum| ≤ 2 * vs.length * (N * A * (1 / 2 ^ 53) + 1 / 2 ^ 1075) := by
  induction vs using List.reverseRecOn with
  | nil => intro _ _; exact ⟨0, rfl, by simp⟩
  | append_singleton xs x ih =>
    intro hlen hv
    have hlen2 : xs.length + 1 ≤ N := by simpa using hlen
    obtain ⟨s0, hs0, he0⟩ := ih (by omega) (fun v hv2 => hv v (by simp [hv2]))
    have hx : |x| ≤ A := hv x (by simp)
    have hsum : |xs.sum| ≤ xs.length * A :=
      abs_sum_le xs A (fun v hv2 => hv v (by simp [hv2]))
    have hk : ((xs.length : ℚ) + 1) ≤ N := by exact_mod_cast hlen2
    have hk0 : (0 : ℚ) ≤ xs.length := Nat.cast_nonneg _
    have hNA : 0 ≤ (N : ℚ) * A := mul_nonneg (Nat.cast_nonneg _) hA
    have hD1 := slack_le N A hB
    generalize hD : (N : ℚ) * A * (1 / 2 ^ 53) + 1 / 2 ^ 1075 = D at he0 hD1 ⊢
    have hD0 : 0 ≤ D := by
      rw [← hD]
      exact add_nonneg (mul_nonneg hNA (by norm_num))
        (div_nonneg zero_le_one (pow_nonneg (by norm_num) _))
    have hkD : (xs.length : ℚ) * D ≤ 2 ^ 20 * (2 ^ 947 + 1) :=
      mul_le_mul (by linarith) hD1 hD0 (by norm_num)
    have hkA : ((xs.length : ℚ) + 1) * A ≤ N * A := mul_le_mul_of_nonneg_right hk hA
    have hy : |s0 + x - (xs.sum + x)| ≤ 2 * xs.length * D := by
      have : s0 + x - (xs.sum + x) = s0 - xs.sum := by ring
      rw [this]; exact he0
    have hyabs : |s0 + x| ≤ N * A + 2 * xs.length * D := by
      have h1 : |s0 + x| ≤ |s0 + x - (xs.sum + x)| + |xs.sum + x| := by
        have := abs_add (s0 + x - (xs.sum + x)) (xs.sum + x)
        rwa [sub_add_cancel] at this
      have h2 : |xs.sum + x| ≤ |xs.sum| + |x| := abs_add _ _
      linarith
    have hbig : |s0 + x| ≤ 2 ^ 1010 :=
      below_overflow _ (N * A) (xs.length * D) (by linarith) hB hkD
    refine ⟨roundQ (s0 + x), ?_, ?_⟩
    · rw [List.map_append, List.foldl_append, hs0]
      simp only [List.map_cons, List.map_nil, List.foldl_cons, List.foldl_nil, addD, add,
        roundNum]
      exact toDouble_fin _ hbig
    · have hr := roundQ_error (s0 + x)
      have hsum2 : (xs ++ [x]).sum = xs.sum + x := by simp
      have h1 : |roundQ (s0 + x) - (xs ++ [x]).sum|
          ≤ |roundQ (s0 + x) - (s0 + x)| + |s0 + x - (xs.sum + x)| := by
        rw [hsum2]; exact abs_sub_le _ _ _
      have h3 : 2 * (xs.length : ℚ) * D * (1 / 2 ^ 53) ≤ D :=
        small_count _ (by linarith) D hD0
      have hlen3 : (((xs ++ [x]).length : ℕ) : ℚ) = xs.length + 1 := by simp
      rw [hlen3]
      exact sum_step_bound (1 / 2 ^ 53) (1 / 2 ^ 1075) (N * A) xs.length D _ _ _ _ h1 hr hyabs
        (by positivity) h3 hy hD

end JSNum

end ExperimentalUX

namespace ExperimentalUX

namespace JSNum

theorem mean_step_bound (u η n A D e1 e2 q L : ℚ) (h1 : L ≤ e1 + e2)
    (he1 : e1 ≤ q * u + η) (hq : q ≤ A + 2 * D) (he2 : e2 ≤ 2 * D)
    (hD : n * A * u + η = D) (hu : 0 ≤ u) (hnu : 2 * n * u ≤ 1) (hu2 : 2 * u ≤ 1)
    (hA : 0 ≤ A) (hη : 0 ≤ η) :
    L ≤ 2 * (n + 1) * A * u + 4 * η := by
  subst hD
  have hqu := mul_le_mul_of_nonneg_right hq hu
  have h2 : 2 * n * u * (A * u) ≤ 1 * (A * u) :=
    mul_le_mul_of_nonneg_right hnu (mul_nonneg hA hu)
  have h3 : 2 * u * η ≤ 1 * η := mul_le_mul_of_nonneg_right hu2 hη
  nlinarith

theorem slack_eq (n A : ℚ) :
    2 * (n + 1) * A * (1 / 2 ^ 53) + 4 * (1 / 2 ^ 1075) = (n + 1) * A / 2 ^ 52 + 1 / 2 ^ 1073 := by
  have e1 : (2 : ℚ) ^ 53 = 2 ^ 52 * 2 := by rw [← pow_succ]
  have e2 : (2 : ℚ) ^ 1075 = 2 ^ 1073 * 4 := by
    have : (2 : ℚ) ^ 1075 = 2 ^ 1073 * 2 ^ 2 := by rw [← pow_add]
    rw [this]; norm_num
  rw [e1, e2]
  have hc : (2 : ℚ) ^ 52 ≠ 0 := pow_ne_zero _ (by norm_num)
  have hd : (2 : ℚ) ^ 1073 ≠ 0 := pow_ne_zero _ (by norm_num)
  generalize (2 : ℚ) ^ 52 = c at hc ⊢
  generalize (2 : ℚ) ^ 1073 = d at hd ⊢
  field_simp
  ring

theorem meanD_error (vs : List ℚ) (A : ℚ) (hne : vs ≠ []) (hn : (vs.length : ℚ) ≤ 2 ^ 20)
    (hB : vs.length * A ≤ 2 ^ 1000) (hv : ∀ v ∈ vs, |v| ≤ A) :
    ∃ a : ℚ, divD ((vs.map fin).foldl addD (fin 0)) (fin (vs.length : ℚ)) = fin a
      ∧ |a - vs.sum / vs.length| ≤ roundingSlack vs.length A := by
  have hA : 0 ≤ A := by
    obtain ⟨v, hvm⟩ := List.exists_mem_of_ne_nil vs hne
    exact le_trans (abs_nonneg v) (hv v hvm)
  have hpos : (0 : ℚ) < vs.length := by
    have : 0 < vs.length := List.length_pos.2 hne
    exact_mod_cast this
  have h1le : (1 : ℚ) ≤ vs.length := by
    have : 1 ≤ vs.length := List.length_pos.2 hne
    exact_mod_cast this
  obtain ⟨sh, hsh, herr⟩ := sumD_error vs.length A hA hn hB vs (le_refl _) hv
  have hsum := abs_sum_le vs A hv
  have hD1 := slack_le vs.length A hB
  generalize hD : (vs.length : ℚ) * A * (1 / 2 ^ 53) + 1 / 2 ^ 1075 = D at herr hD1
  have hNA : 0 ≤ (vs.length : ℚ) * A := mul_nonneg (le_of_lt hpos) hA
  have hD0 : 0 ≤ D := by
    rw [← hD]
    exact add_nonneg (mul_nonneg hNA (by norm_num))
      (div_nonneg zero_le_one (pow_nonneg (by norm_num) _))
  have hkD : (vs.length : ℚ) * D ≤ 2 ^ 20 * (2 ^ 947 + 1) :=
    mul_le_mul hn hD1 hD0 (by norm_num)
  -- the quotient that is rounded
  have hshabs : |sh| ≤ vs.length * A + 2 * (vs.length * D) := by
    have h1 : |sh| ≤ |sh - vs.sum| + |vs.sum| := by
      have := abs_add (sh - vs.sum) vs.sum
      rwa [sub_add_cancel] at this
    linarith
  have hquot : |sh / vs.length| ≤ |sh| := by
    rw [abs_div, abs_of_pos hpos]
    exact div_le_self (abs_nonneg _) h1le
  have hbig : |sh / vs.length| ≤ 2 ^ 1010 :=
    below_overflow _ (vs.length * A) (vs.length * D) (le_trans hquot hshabs) hB hkD
  have hne0 : (vs.length : ℚ) ≠ 0 := ne_of_gt hpos
  refine ⟨roundQ (sh / vs.length), ?_, ?_⟩
  · rw [hsh]
    simp only [divD, div, if_neg hne0, roundNum]
    exact toDouble_fin _ hbig
  · have hr := roundQ_error (sh / vs.length)
    have h1 : |roundQ (sh / vs.length) - vs.sum / vs.length|
        ≤ |roundQ (sh / vs.length) - sh / vs.length| + |sh / vs.length - vs.sum / vs.length| :=
      abs_sub_le _ _ _
    have he2 : |sh / vs.length - vs.sum / vs.length| ≤ 2 * D := by
      rw [← sub_div, abs_div, abs_of_pos hpos, div_le_iff₀ hpos]
      calc |sh - vs.sum| ≤ 2 * vs.length * D := herr
        _ = 2 * D * vs.length := by ring
    have hmean : |vs.sum / vs.length| ≤ A := by
      rw [abs_div, abs_of_pos hpos, div_le_iff₀ hpos]
      calc |vs.sum| ≤ vs.length * A := hsum
        _ = A * vs.length := by ring
    have hq : |sh / vs.length| ≤ A + 2 * D := by
      have h2 : |sh / vs.length| ≤ |sh / vs.length - vs.sum / vs.length| + |vs.sum / vs.length| := by
        have := abs_add (sh / vs.length - vs.sum / vs.length) (vs.sum / vs.length)
        rwa [sub_add_cancel] at this
      linarith
    have hnu : 2 * (vs.length : ℚ) * (1 / 2 ^ 53) ≤ 1 := by
      have h5 : 2 * (vs.length : ℚ) * (1 / 2 ^ 53) ≤ 2 * 2 ^ 20 * (1 / 2 ^ 53) :=
        mul_le_mul_of_nonneg_right (by linarith) (by positivity)
      have h6 : (2 : ℚ) * 2 ^ 20 * (1 / 2 ^ 53) ≤ 1 := by norm_num
      linarith
    have hfin := mean_step_bound (1 / 2 ^ 53) (1 / 2 ^ 1075) vs.length A D _ _ _ _ h1 hr hq he2
      hD (by positivity) hnu (by norm_num) hA
      (div_nonneg zero_le_one (pow_nonneg (by norm_num) _))
    rw [roundingSlack, ← slack_eq]
    exact hfin

end JSNum

end ExperimentalUX

/-! ## The rolling averages in binary64 arithmetic -/

namespace ExperimentalUX

theorem near_of_between (a m E : ℚ) (vs : List ℚ) (hb : Between m vs) (he : |a - m| ≤ E) :
    NearBetween a vs E := by
  obtain ⟨lo, hlo, hi, hhi, hall, h1, h2⟩ := hb
  have h3 := abs_le.1 he
  exact ⟨lo, hlo, hi, hhi, hall, by linarith [h3.1], by linarith [h3.2]⟩

namespace JSNum

theorem count_bound (n A : ℚ) (hn : n ≤ 2 ^ 10) (hA0 : 0 ≤ A) (hA : A ≤ 2 ^ 990) :
    n * A ≤ 2 ^ 1000 := by
  calc n * A ≤ 2 ^ 10 * 2 ^ 990 := mul_le_mul hn hA hA0 (by positivity)
    _ = 2 ^ 1000 := by rw [← pow_add]

theorem mean_near (vs : List ℚ) (A : ℚ) (hne : vs ≠ []) (hlen : vs.length ≤ 1024)
    (hv : ∀ v ∈ vs, |v| ≤ A) (hA : A ≤ 2 ^ 990) :
    ∃ a : ℚ, divD ((vs.map fin).foldl addD (fin 0)) (fin (vs.length : ℚ)) = fin a
      ∧ NearBetween a vs (roundingSlack vs.length A) := by
  have hA0 : 0 ≤ A := by
    obtain ⟨v, hvm⟩ := List.exists_mem_of_ne_nil vs hne
    exact le_trans (abs_nonneg v) (hv v hvm)
  have hn : (vs.length : ℚ) ≤ 2 ^ 10 := by
    have : ((vs.length : ℕ) : ℚ) ≤ ((1024 : ℕ) : ℚ) := by exact_mod_cast hlen
    norm_num at this ⊢
    exact this
  obtain ⟨a, ha, herr⟩ := meanD_error vs A hne (le_trans hn (by norm_num))
    (count_bound _ A hn hA0 hA) hv
  exact ⟨a, ha, near_of_between a _ _ vs (between_mean vs hne) herr⟩

end JSNum

namespace Microphone

theorem updateDataDouble_history (s : State) (level : JSNum) (t1 t2 t3 : ℚ) :
    (updateDataDouble s level t1 t2 t3).volumeHistory
      = pushHistory HISTORY_LENGTH s.volumeHistory
          (JSNum.min (JSNum.mulD level (.fin VOLUME_SCALAR)) (.fin 1)) := rfl

theorem updateDataDouble_average (s : State) (level : JSNum) (t1 t2 t3 : ℚ) :
    (updateDataDouble s level t1 t2 t3).averageVolume
      = JSNum.divD (sumHistoryDouble (updateDataDouble s level t1 t2 t3).volumeHistory)
          (.fin ((updateDataDouble s level t1 t2 t3).volumeHistory.length : ℚ)) := rfl

theorem pushHistory_length_le (hist : List JSNum) (v : JSNum)
    (h : hist.length ≤ HISTORY_LENGTH) :
    (pushHistory HISTORY_LENGTH hist v).length ≤ HISTORY_LENGTH := by
  rw [pushHistory_eq]
  split_ifs
  · simp only [List.length_drop, List.length_append, List.length_singleton]; omega
  · simp only [List.length_append, List.length_singleton]; omega

theorem average_near (s : State) (level : JSNum) (t1 t2 t3 : ℚ) (ws : List ℚ) (A : ℚ)
    (hlen : s.volumeHistory.length ≤ HISTORY_LENGTH)
    (hws : (updateDataDouble s level t1 t2 t3).volumeHistory = ws.map .fin)
    (hA : ∀ w ∈ ws, |w| ≤ A) (hA2 : A ≤ 2 ^ 990) :
    ∃ a : ℚ, (updateDataDouble s level t1 t2 t3).averageVolume = .fin a
      ∧ NearBetween a ws (roundingSlack ws.length A) := by
  have hne : ws ≠ [] := by
    intro h
    rw [h, updateDataDouble_history] at hws
    exact pushHistory_ne_nil _ _ hws
  have hl : ws.length ≤ 1024 := by
    have h1 := pushHistory_length_le s.volumeHistory
      (JSNum.min (JSNum.mulD level (.fin VOLUME_SCALAR)) (.fin 1)) hlen
    rw [← updateDataDouble_history s level t1 t2 t3, hws, List.length_map] at h1
    simp only [HISTORY_LENGTH] at h1
    omega
  obtain ⟨a, ha, hnear⟩ := JSNum.mean_near ws A hne hl hA hA2
  refine ⟨a, ?_, hnear⟩
  rw [updateDataDouble_average, hws, List.length_map]
  exact ha

end Microphone

namespace Scroll

theorem drawDouble_speedBuffer (s : State) (now : ℚ) :
    (drawDouble s now).speedBuffer
      = if deltaTimeDouble s now > 0 then (recordSpeedDouble s now).speedBuffer
        else s.speedBuffer := by
  unfold drawDouble
  simp only []
  split_ifs <;> simp [applyMomentumDouble, updateScrollState]

theorem drawDouble_scrollSpeed (s : State) (now : ℚ) :
    (drawDouble s now).scrollSpeed
      = if deltaTimeDouble s now > 0 then (recordSpeedDouble s now).scrollSpeed
        else s.scrollSpeed := by
  unfold drawDouble
  simp only []
  split_ifs <;> simp [applyMomentumDouble, updateScrollState]

theorem evictOldDouble_snoc_ne_nil (t : ℚ) (l : List SpeedEntry) (e : SpeedEntry)
    (he : ¬ JSNum.roundQ (t - e.time) > SPEED_WINDOW) : evictOldDouble t (l ++ [e]) ≠ [] := by
  induction l with
  | nil => simp [evictOldDouble, he]
  | cons x rest ih =>
    rw [List.cons_append, evictOldDouble]
    split_ifs
    · exact ih
    · simp

theorem recordSpeedDouble_buffer (s : State) (now : ℚ) :
    (recordSpeedDouble s now).speedBuffer
      = limitSamples (evictOldDouble now (s.speedBuffer ++ [newEntryDouble s now])) := rfl

theorem recordSpeedDouble_buffer_ne_nil (s : State) (now : ℚ) :
    (recordSpeedDouble s now).speedBuffer ≠ [] := by
  rw [recordSpeedDouble_buffer]
  apply limitSamples_ne_nil
  apply evictOldDouble_snoc_ne_nil
  simp [newEntryDouble, SPEED_WINDOW, JSNum.roundQ_zero]

theorem recordSpeedDouble_scrollSpeed (s : State) (now : ℚ) :
    (recordSpeedDouble s now).scrollSpeed
      = JSNum.divD (sumSpeedsDouble (recordSpeedDouble s now).speedBuffer)
          (.fin ((recordSpeedDouble s now).speedBuffer.length : ℚ)) := by
  have h : 0 < (recordSpeedDouble s now).speedBuffer.length :=
    List.length_pos.2 (recordSpeedDouble_buffer_ne_nil s now)
  rw [recordSpeedDouble_buffer] at h
  simp only [recordSpeedDouble]
  rw [if_pos h]

theorem sumSpeedsDouble_eq (buf : List SpeedEntry) :
    sumSpeedsDouble buf = (buf.map (fun e => e.speed)).foldl JSNum.addD (.fin 0) := by
  simp [sumSpeedsDouble, List.foldl_map]

theorem speed_near (s : State) (now : ℚ) (vs : List ℚ) (B : ℚ)
    (hrec : deltaTimeDouble s now > 0)
    (hvs : (drawDouble s now).speedBuffer.map (fun e => e.speed) = vs.map .fin)
    (hB : ∀ v ∈ vs, |v| ≤ B) (hB2 : B ≤ 2 ^ 990) :
    ∃ a : ℚ, (drawDouble s now).scrollSpeed = .fin a
      ∧ NearBetween a vs (roundingSlack vs.length B) := by
  rw [drawDouble_speedBuffer, if_pos hrec] at hvs
  rw [drawDouble_scrollSpeed, if_pos hrec]
  have hlen : (recordSpeedDouble s now).speedBuffer.length = vs.length := by
    have := congrArg List.length hvs
    simpa using this
  have hne : vs ≠ [] := by
    intro h
    have h0 : (recordSpeedDouble s now).speedBuffer.length = 0 := by rw [hlen, h]; rfl
    exact recordSpeedDouble_buffer_ne_nil s now (List.length_eq_zero.1 h0)
  have hl : vs.length ≤ 1024 := by
    have h1 := limitSamples_length
      (evictOldDouble now (s.speedBuffer ++ [newEntryDouble s now]))
    rw [← recordSpeedDouble_buffer, hlen] at h1
    simp only [SPEED_SAMPLES] at h1
    omega
  obtain ⟨a, ha, hnear⟩ := JSNum.mean_near vs B hne hl hB hB2
  refine ⟨a, ?_, hnear⟩
  rw [recordSpeedDouble_scrollSpeed, sumSpeedsDouble_eq, hvs, hlen]
  exact ha

end Scroll

end ExperimentalUX

/-! ## Three equal samples whose binary64 average exceeds them -/

namespace ExperimentalUX

namespace JSNum

theorem toDouble_small (x : ℚ) (hx : |x| ≤ 4) : toDouble x = fin (roundQ x) := by
  apply toDouble_fin
  have : (4 : ℚ) ≤ 2 ^ 1010 := by
    have h1 : (2 : ℚ) ^ 1010 = 2 ^ 2 * 2 ^ 1008 := by rw [← pow_add]
    have h2 : (1 : ℚ) ≤ 2 ^ 1008 := one_le_pow₀ (by norm_num)
    rw [h1]; nlinarith
  linarith

theorem addD_small (a b : ℚ) (h : |a + b| ≤ 4) :
    addD (fin a) (fin b) = fin (roundQ (a + b)) := by
  simp only [addD, add, roundNum]
  exact toDouble_small _ h

theorem roundQ_literal : roundQ (1 / 50) = 5764607523034235 / 288230376151711744 := by
  rw [roundQ_eval _ (-6) 5764607523034234 5764607523034235]
  · norm_num
  · norm_num [abs_of_pos]
  · norm_num [abs_of_pos]
  · norm_num
  · rw [Int.floor_eq_iff]; norm_num
  · norm_num

theorem roundQ_scaled : roundQ (5764607523034235 / 288230376151711744 * 5)
    = 3602879701896397 / 36028797018963968 := by
  rw [roundQ_eval _ (-4) 7205759403792793 7205759403792794]
  · norm_num
  · norm_num [abs_of_pos]
  · norm_num [abs_of_pos]
  · norm_num
  · rw [Int.floor_eq_iff]; norm_num
  · norm_num

theorem roundQ_sum1 : roundQ (0 + 3602879701896397 / 36028797018963968)
    = 3602879701896397 / 36028797018963968 := by
  rw [roundQ_eval _ (-4) 7205759403792794 7205759403792794]
  · norm_num
  · norm_num [abs_of_pos]
  · norm_num [abs_of_pos]
  · norm_num
  · rw [Int.floor_eq_iff]; norm_num
  · norm_num

theorem roundQ_sum2 :
    roundQ (3602879701896397 / 36028797018963968 + 3602879701896397 / 36028797018963968)
      = 3602879701896397 / 18014398509481984 := by
  rw [roundQ_eval _ (-3) 7205759403792794 7205759403792794]
  · norm_num
  · norm_num [abs_of_pos]
  · norm_num [abs_of_pos]
  · norm_num
  · rw [Int.floor_eq_iff]; norm_num
  · norm_num

theorem roundQ_sum3 :
    roundQ (3602879701896397 / 18014398509481984 + 3602879701896397 / 36028797018963968)
      = 1351079888211149 / 4503599627370496 := by
  rw [roundQ_eval _ (-2) 5404319552844595 5404319552844596]
  · norm_num
  · norm_num [abs_of_pos]
  · norm_num [abs_of_pos]
  · norm_num
  · rw [Int.floor_eq_iff]; norm_num
  · norm_num

theorem roundQ_mean : roundQ (1351079888211149 / 4503599627370496 / 3)
    = 7205759403792795 / 72057594037927936 := by
  rw [roundQ_eval _ (-4) 7205759403792794 7205759403792795]
  · norm_num
  · norm_num [abs_of_pos]
  · norm_num [abs_of_pos]
  · norm_num
  · rw [Int.floor_eq_iff]; norm_num
  · norm_num

end JSNum

namespace Microphone

theorem scaled_sample :
    JSNum.min (JSNum.mulD (.fin (5764607523034235 / 288230376151711744)) (.fin VOLUME_SCALAR))
        (.fin 1)
      = .fin (3602879701896397 / 36028797018963968) := by
  have h : JSNum.mulD (.fin (5764607523034235 / 288230376151711744)) (.fin VOLUME_SCALAR)
      = .fin (3602879701896397 / 36028797018963968) := by
    simp only [JSNum.mulD, JSNum.mul, JSNum.roundNum, VOLUME_SCALAR]
    rw [JSNum.toDouble_small _ (by norm_num [abs_of_pos]), JSNum.roundQ_scaled]
  rw [h]
  norm_num [JSNum.min, JSNum.lt]

theorem three_samples_history :
    (updateDataDouble (updateDataDouble (updateDataDouble init
        (.fin (5764607523034235 / 288230376151711744)) 0 0 0)
        (.fin (5764607523034235 / 288230376151711744)) 16 16 16)
        (.fin (5764607523034235 / 288230376151711744)) 33 33 33).volumeHistory
      = [3602879701896397 / 36028797018963968, 3602879701896397 / 36028797018963968,
          3602879701896397 / 36028797018963968].map .fin := by
  simp only [updateDataDouble_history, scaled_sample]
  simp [pushHistory, init, HISTORY_LENGTH]

theorem three_samples_sum :
    sumHistoryDouble ([3602879701896397 / 36028797018963968,
        3602879701896397 / 36028797018963968,
        3602879701896397 / 36028797018963968].map .fin)
      = .fin (1351079888211149 / 4503599627370496) := by
  simp only [sumHistoryDouble, List.map_cons, List.map_nil, List.foldl_cons, List.foldl_nil]
  rw [JSNum.addD_small _ _ (by norm_num [abs_of_pos]), JSNum.roundQ_sum1,
    JSNum.addD_small _ _ (by norm_num [abs_of_pos]), JSNum.roundQ_sum2,
    JSNum.addD_small _ _ (by norm_num [abs_of_pos]), JSNum.roundQ_sum3]

theorem three_samples_average :
    (updateDataDouble (updateDataDouble (updateDataDouble init
        (.fin (5764607523034235 / 288230376151711744)) 0 0 0)
        (.fin (5764607523034235 / 288230376151711744)) 16 16 16)
        (.fin (5764607523034235 / 288230376151711744)) 33 33 33).averageVolume
      = .fin (7205759403792795 / 72057594037927936) := by
  rw [updateDataDouble_average, three_samples_history, three_samples_sum]
  have h3 : (([3602879701896397 / 36028797018963968, 3602879701896397 / 36028797018963968,
      3602879701896397 / 36028797018963968].map JSNum.fin).length : ℚ) = 3 := by
    simp
  rw [h3]
  have hne : (3 : ℚ) ≠ 0 := by norm_num
  simp only [JSNum.divD, JSNum.div, if_neg hne, JSNum.roundNum]
  rw [JSNum.toDouble_small _ (by norm_num [abs_of_pos]), JSNum.roundQ_mean]

end Microphone

/-- C4 (counterexample): three `updateData` calls in binary64 arithmetic with the level
`0.02` (the binary64 value nearest to it) leave three equal entries `0.1` in
`volumeHistory`, and `averageVolume` is `0.10000000000000002`, which is greater than every
entry: it does not lie between the least and the greatest element of the window. -/
theorem average_above_max :
    JSNum.toDouble (1 / 50) = .fin (5764607523034235 / 288230376151711744)
    ∧ (Microphone.updateDataDouble (Microphone.updateDataDouble (Microphone.updateDataDouble
        Microphone.init
        (.fin (5764607523034235 / 288230376151711744)) 0 0 0)
        (.fin (5764607523034235 / 288230376151711744)) 16 16 16)
        (.fin (5764607523034235 / 288230376151711744)) 33 33 33).volumeHistory
      = [3602879701896397 / 36028797018963968, 3602879701896397 / 36028797018963968,
          3602879701896397 / 36028797018963968].map .fin
    ∧ (Microphone.updateDataDouble (Microphone.updateDataDouble (Microphone.updateDataDouble
        Microphone.init
        (.fin (5764607523034235 / 288230376151711744)) 0 0 0)
        (.fin (5764607523034235 / 288230376151711744)) 16 16 16)
        (.fin (5764607523034235 / 288230376151711744)) 33 33 33).averageVolume
      = .fin (7205759403792795 / 72057594037927936)
    ∧ (3602879701896397 / 36028797018963968 : ℚ) < 7205759403792795 / 72057594037927936
    ∧ ¬ Between (7205759403792795 / 72057594037927936)
        [3602879701896397 / 36028797018963968, 3602879701896397 / 36028797018963968,
          3602879701896397 / 36028797018963968] := by
  refine ⟨?_, Microphone.three_samples_history, Microphone.three_samples_average,
    by norm_num, ?_⟩
  · rw [JSNum.toDouble_small _ (by norm_num [abs_of_pos]), JSNum.roundQ_literal]
  · rintro ⟨lo, _, hi, hhi, _, _, h⟩
    simp only [List.mem_cons, List.mem_singleton, List.not_mem_nil, or_false, or_self] at hhi
    rw [hhi] at h
    norm_num at h

/-- C4 (amended): in binary64 arithmetic the rolling average lies between the window's
extremes up to the rounding of the sum and of the division.  When the window after the
call holds finite values of magnitude at most `A` (and `A` is at most `2 ^ 990`, far from
overflow), `averageVolume` after `updateData` and `scrollSpeed` after a `draw` tick that
records a sample are finite and satisfy `lo - E ≤ average ≤ hi + E`, where `lo` and `hi`
are the least and the greatest element of the window of `n` values and
`E = (n + 1) * A / 2 ^ 52 + 1 / 2 ^ 1073`. -/
theorem average_near_extremes
    (s : Microphone.State) (level : JSNum) (t1 t2 t3 : ℚ) (ws : List ℚ) (A : ℚ)
    (sc : Scroll.State) (now : ℚ) (vs : List ℚ) (B : ℚ)
    (hlen : s.volumeHistory.length ≤ Microphone.HISTORY_LENGTH)
    (hws : (Microphone.updateDataDouble s level t1 t2 t3).volumeHistory = ws.map .fin)
    (hA : ∀ w ∈ ws, |w| ≤ A) (hA2 : A ≤ 2 ^ 990)
    (hrec : Scroll.deltaTimeDouble sc now > 0)
    (hvs : (Scroll.drawDouble sc now).speedBuffer.map (fun e => e.speed) = vs.map .fin)
    (hB : ∀ v ∈ vs, |v| ≤ B) (hB2 : B ≤ 2 ^ 990) :
    (∃ a : ℚ, (Microphone.updateDataDouble s level t1 t2 t3).averageVolume = .fin a
        ∧ NearBetween a ws (roundingSlack ws.length A))
    ∧ (∃ a : ℚ, (Scroll.drawDouble sc now).scrollSpeed = .fin a
        ∧ NearBetween a vs (roundingSlack vs.length B)) :=
  ⟨Microphone.average_near s level t1 t2 t3 ws A hlen hws hA hA2,
    Scroll.speed_near sc now vs B hrec hvs hB hB2⟩

end ExperimentalUX

/-! ## The rounded averages on concrete runs -/

namespace ExperimentalUX

namespace JSNum

theorem roundQ_one : roundQ 1 = 1 := by
  rw [roundQ_eval _ 0 4503599627370496 4503599627370496]
  · norm_num
  · norm_num
  · norm_num
  · norm_num
  · rw [Int.floor_eq_iff]; norm_num
  · norm_num

theorem roundQ_sixteen : roundQ 16 = 16 := by
  rw [roundQ_eval _ 4 4503599627370496 4503599627370496]
  · norm_num
  · norm_num
  · norm_num
  · norm_num
  · rw [Int.floor_eq_iff]; norm_num
  · norm_num

theorem roundQ_delta : roundQ (16 / 1000) = 1152921504606847 / 72057594037927936 := by
  rw [roundQ_eval _ (-6) 4611686018427387 4611686018427388]
  · norm_num
  · norm_num [abs_of_pos]
  · norm_num [abs_of_pos]
  · norm_num
  · rw [Int.floor_eq_iff]; norm_num
  · norm_num

theorem roundQ_speed : roundQ (1 / (1152921504606847 / 72057594037927936)) = 125 / 2 := by
  rw [roundQ_eval _ 5 8796093022207999 8796093022208000]
  · norm_num
  · norm_num [abs_of_pos]
  · norm_num [abs_of_pos]
  · norm_num
  · rw [Int.floor_eq_iff]; norm_num
  · norm_num

end JSNum

namespace Microphone

theorem two_samples_history :
    (updateDataDouble (updateDataDouble init
        (.fin (5764607523034235 / 288230376151711744)) 0 0 0)
        (.fin (5764607523034235 / 288230376151711744)) 16 16 16).volumeHistory
      = [3602879701896397 / 36028797018963968, 3602879701896397 / 36028797018963968].map
          .fin := by
  simp only [updateDataDouble_history, scaled_sample]
  simp [pushHistory, init, HISTORY_LENGTH]

end Microphone

namespace Scroll

theorem wheel_delta : deltaTimeDouble (mouseWheel (setup 0) 1 0) 16
    = 1152921504606847 / 72057594037927936 := by
  show JSNum.roundQ (JSNum.roundQ (16 - 0) / 1000) = _
  rw [sub_zero, JSNum.roundQ_sixteen, JSNum.roundQ_delta]

theorem wheel_entry : newEntryDouble (mouseWheel (setup 0) 1 0) 16
    = SpeedEntry.mk (.fin (125 / 2)) 16 := by
  have hy : (mouseWheel (setup 0) 1 0).scrollY = .fin 1 := by
    norm_num [mouseWheel, setup, updateScrollState, scrollIncrement, JSNum.add]
  have hl : (mouseWheel (setup 0) 1 0).lastScrollY = .fin 0 := rfl
  have h1 : JSNum.subD (.fin 1) (.fin 0) = .fin 1 := by
    simp only [JSNum.subD, JSNum.sub, JSNum.neg, JSNum.add, JSNum.roundNum, neg_zero, add_zero]
    rw [JSNum.toDouble_small _ (by norm_num), JSNum.roundQ_one]
  have hne : (1152921504606847 / 72057594037927936 : ℚ) ≠ 0 := by norm_num
  rw [newEntryDouble, wheel_delta, hy, hl, h1]
  simp only [JSNum.divD, JSNum.div, if_neg hne, JSNum.roundNum]
  rw [JSNum.toDouble_fin _ (by
    have h2 : (1 : ℚ) ≤ 2 ^ 1010 := one_le_pow₀ (by norm_num)
    have h3 : |(1 : ℚ) / (1152921504606847 / 72057594037927936)| ≤ 2 ^ 7 := by
      norm_num [abs_of_pos]
    have h4 : (2 : ℚ) ^ 1010 = 2 ^ 7 * 2 ^ 1003 := by rw [← pow_add]
    have h5 : (1 : ℚ) ≤ 2 ^ 1003 := one_le_pow₀ (by norm_num)
    rw [h4]
    nlinarith), JSNum.roundQ_speed]

theorem wheel_buffer :
    (drawDouble (mouseWheel (setup 0) 1 0) 16).speedBuffer.map (fun e => e.speed)
      = [(125 / 2 : ℚ)].map .fin := by
  have hrec : deltaTimeDouble (mouseWheel (setup 0) 1 0) 16 > 0 := by
    rw [wheel_delta]; norm_num
  have hb : (mouseWheel (setup 0) 1 0).speedBuffer = [] := rfl
  rw [drawDouble_speedBuffer, if_pos hrec, recordSpeedDouble_buffer, wheel_entry, hb]
  simp [evictOldDouble, limitSamples, JSNum.roundQ_zero, SPEED_WINDOW, SPEED_SAMPLES]

end Scroll

theorem average_near_extremes_witness :
    (Microphone.updateDataDouble (Microphone.updateDataDouble Microphone.init
        (.fin (5764607523034235 / 288230376151711744)) 0 0 0)
        (.fin (5764607523034235 / 288230376151711744)) 16 16 16).volumeHistory.length
      ≤ Microphone.HISTORY_LENGTH
    ∧ Scroll.deltaTimeDouble (Scroll.mouseWheel (Scroll.setup 0) 1 0) 16 > 0
    ∧ (∃ a : ℚ,
        (Microphone.updateDataDouble (Microphone.updateDataDouble (Microphone.updateDataDouble
          Microphone.init
          (.fin (5764607523034235 / 288230376151711744)) 0 0 0)
          (.fin (5764607523034235 / 288230376151711744)) 16 16 16)
          (.fin (5764607523034235 / 288230376151711744)) 33 33 33).averageVolume = .fin a
        ∧ NearBetween a
            [3602879701896397 / 36028797018963968, 3602879701896397 / 36028797018963968,
              3602879701896397 / 36028797018963968]
            (roundingSlack 3 1))
    ∧ (∃ a : ℚ,
        (Scroll.drawDouble (Scroll.mouseWheel (Scroll.setup 0) 1 0) 16).scrollSpeed = .fin a
        ∧ NearBetween a [125 / 2] (roundingSlack 1 63)) := by
  have h1 : (Microphone.updateDataDouble (Microphone.updateDataDouble Microphone.init
        (.fin (5764607523034235 / 288230376151711744)) 0 0 0)
        (.fin (5764607523034235 / 288230376151711744)) 16 16 16).volumeHistory.length
      ≤ Microphone.HISTORY_LENGTH := by
    rw [Microphone.two_samples_history]
    simp [Microphone.HISTORY_LENGTH]
  have h2 : Scroll.deltaTimeDouble (Scroll.mouseWheel (Scroll.setup 0) 1 0) 16 > 0 := by
    rw [Scroll.wheel_delta]; norm_num
  have hbig : (63 : ℚ) ≤ 2 ^ 990 := by
    have e : (2 : ℚ) ^ 990 = 2 ^ 6 * 2 ^ 984 := by rw [← pow_add]
    have e2 : (1 : ℚ) ≤ 2 ^ 984 := one_le_pow₀ (by norm_num)
    rw [e]; nlinarith
  exact ⟨h1, h2, average_near_extremes _ _ 33 33 33
    [3602879701896397 / 36028797018963968, 3602879701896397 / 36028797018963968,
      3602879701896397 / 36028797018963968] 1 _ 16 [125 / 2] 63 h1
    Microphone.three_samples_history
    (by
      intro w hw
      simp only [List.mem_cons, List.mem_singleton, List.not_mem_nil, or_false, or_self] at hw
      rw [hw]; norm_num [abs_of_pos])
    (by linarith) h2 Scroll.wheel_buffer
    (by
      intro v hv
      simp only [List.mem_singleton] at hv
      rw [hv]; norm_num [abs_of_pos])
    hbig⟩

end ExperimentalUX
